import Mathlib

/-!
# OTTO audio buffer pool and buffer handles

A shallow embedding of `AudioBufferHandle` and `AudioBufferPool` from
`src/core/audio/processor.hpp`, followed by theorems about them.

Conventions of the embedding.

* A C++ operation that can leave defined behaviour (or call `std::terminate`)
  returns `Except Fault _`; the fault says why no result is produced.
* `std::size_t` values are natural numbers, reduced modulo `2 ^ 64` where the
  source computes with them; `int` values are integers, narrowing conversions
  to `int` are two's complement (`to_int`), and `++` / `--` on an `int` at the
  end of its range is signed overflow, which is a fault.
* A `float*` is a block identity together with an offset into that block
  (`Ptr`); an `int*` into `reference_counts` is the index of the cell.
* `float` samples are only stored, compared and zero-filled by the code
  modelled here, so they are represented by integers.
* Allocation of the sample bank is assumed to succeed; logging is left out.
-/

namespace otto.core.audio

/-- Stands for `float`: the modelled code only stores `0` and moves samples around. -/
abbrev Sample := Int

/-- Why an operation produces no result. -/
inductive Fault where
  /-- Reached `std::terminate()`. -/
  | terminate
  /-- Read or wrote through a null pointer. -/
  | null_deref
  /-- Signed `int` overflow in `++` or `--`. -/
  | signed_overflow
  /-- Access outside the array the pointer points into. -/
  | out_of_bounds
  /-- Access through a pointer into an array that has been freed. -/
  | use_after_free
  deriving DecidableEq, Repr

/-- Largest value of a 32 bit `int`. -/
def INT_MAX : Int := 2147483647

/-- Smallest value of a 32 bit `int`. -/
def INT_MIN : Int := -2147483648

/-- Number of values of `std::size_t` (64 bit). -/
def SIZE_RANGE : Nat := 2 ^ 64

/-- Conversion of an unsigned value to `int` (keeps the low 32 bits, two's complement). -/
def to_int (n : Nat) : Int :=
  if n % 2 ^ 32 < 2 ^ 31 then ((n % 2 ^ 32 : Nat) : Int) else ((n % 2 ^ 32 : Nat) : Int) - 2 ^ 32

/-- Conversion of an `int` to `std::size_t` (value modulo `2 ^ 64`). -/
def to_size_t (z : Int) : Nat := (z % 2 ^ 64).toNat

/-- A `float*`: which array it points into and the offset from the start of that array. -/
structure Ptr where
  block : Nat
  off : Int
  deriving DecidableEq, Repr

/-- Data members of `AudioBufferHandle`. `none` is `nullptr`; `_reference_count` is the index
of the cell of `AudioBufferPool::reference_counts` the handle points to. -/
structure AudioBufferHandle where
  _data : Option Ptr
  _length : Nat
  _reference_count : Option Nat
  deriving DecidableEq, Repr

/-- Data members of `AudioBufferPool`. `data` is the content of the array owned by the
`unique_ptr`, `data_block` its identity and `data_size` its number of elements. -/
structure AudioBufferPool where
  buffer_size : Nat
  reference_counts : List Int
  _avaliable_buffers : Nat
  data_block : Nat
  data_size : Nat
  data : Nat → Sample
  _max_val : Nat

/-- Source `AudioBufferPool::number_of_buffers`. -/
def number_of_buffers : Nat := 8

/-- The statement `(*cell)++` on a cell of `reference_counts`. -/
def incr (p : AudioBufferPool) (cell : Option Nat) : Except Fault AudioBufferPool :=
  match cell with
  | none => .error .null_deref
  | some i =>
    match p.reference_counts[i]? with
    | none => .error .out_of_bounds
    | some c =>
      if c < INT_MAX then .ok { p with reference_counts := p.reference_counts.set i (c + 1) }
      else .error .signed_overflow

/-- The statement `(*cell)--` on a cell of `reference_counts`. -/
def decr (p : AudioBufferPool) (cell : Option Nat) : Except Fault AudioBufferPool :=
  match cell with
  | none => .error .null_deref
  | some i =>
    match p.reference_counts[i]? with
    | none => .error .out_of_bounds
    | some c =>
      if INT_MIN < c then .ok { p with reference_counts := p.reference_counts.set i (c - 1) }
      else .error .signed_overflow

namespace AudioBufferHandle

/-- Source `AudioBufferHandle(float* data, std::size_t length, int& reference_count)`. -/
def construct (p : AudioBufferPool) (data : Option Ptr) (length : Nat) (reference_count : Nat) :
    Except Fault (AudioBufferPool × AudioBufferHandle) :=
  match incr p (some reference_count) with
  | .error e => .error e
  | .ok p1 => .ok (p1, { _data := data, _length := length, _reference_count := some reference_count })

/-- Source `~AudioBufferHandle()`: the pool after the handle `h` is destroyed. -/
def destroy (p : AudioBufferPool) (h : AudioBufferHandle) : Except Fault AudioBufferPool :=
  match h._reference_count with
  | none => .ok p
  | some i => decr p (some i)

/-- Source `AudioBufferHandle(AudioBufferHandle&& rhs)`: the new handle and `rhs` afterwards. -/
def move_construct (rhs : AudioBufferHandle) : AudioBufferHandle × AudioBufferHandle :=
  ({ _data := rhs._data, _length := rhs._length, _reference_count := rhs._reference_count },
   { rhs with _data := none, _reference_count := none })

/-- Source `AudioBufferHandle(const AudioBufferHandle& rhs)`. -/
def copy_construct (p : AudioBufferPool) (rhs : AudioBufferHandle) :
    Except Fault (AudioBufferPool × AudioBufferHandle) :=
  match incr p rhs._reference_count with
  | .error e => .error e
  | .ok p1 =>
    .ok (p1, { _data := rhs._data, _length := rhs._length, _reference_count := rhs._reference_count })

/-- Source `int reference_count() const`. -/
def reference_count (p : AudioBufferPool) (h : AudioBufferHandle) : Except Fault Int :=
  match h._reference_count with
  | none => .error .null_deref
  | some i =>
    match p.reference_counts[i]? with
    | none => .error .out_of_bounds
    | some c => .ok c

/-- Source `float* data() const`. -/
def data (h : AudioBufferHandle) : Option Ptr := h._data

/-- Source `std::size_t size() const`. -/
def size (h : AudioBufferHandle) : Nat := h._length

/-- Pointer arithmetic `ptr + n`. -/
def ptr_add (ptr : Option Ptr) (n : Int) : Option Ptr :=
  ptr.map fun q => { q with off := q.off + n }

/-- Source `begin()`. -/
def begin_ (h : AudioBufferHandle) : Option Ptr := h._data

/-- Source `end()`. -/
def end_ (h : AudioBufferHandle) : Option Ptr := ptr_add h._data h._length

/-- The address `&h[i]` computed by `operator[]`, that is `_data + i`. -/
def index_addr (h : AudioBufferHandle) (i : Nat) : Option Ptr := ptr_add h._data i

/-- Reading a `float` through a pointer. -/
def load (p : AudioBufferPool) (ptr : Option Ptr) : Except Fault Sample :=
  match ptr with
  | none => .error .null_deref
  | some q =>
    if q.block ≠ p.data_block then .error .use_after_free
    else if 0 ≤ q.off ∧ q.off < p.data_size then .ok (p.data q.off.toNat)
    else .error .out_of_bounds

/-- Reading `h[i]` (`operator[]` followed by a read of the referenced `float`). -/
def get (p : AudioBufferPool) (h : AudioBufferHandle) (i : Nat) : Except Fault Sample :=
  load p (index_addr h i)

/-- Source `void release()`: the pool and the handle afterwards. -/
def release (p : AudioBufferPool) (h : AudioBufferHandle) :
    Except Fault (AudioBufferPool × AudioBufferHandle) :=
  match decr p h._reference_count with
  | .error e => .error e
  | .ok p1 => .ok (p1, { h with _reference_count := none, _data := none })

/-- Source `void clear()`, that is `std::fill(begin(), end(), 0)`. An empty range writes nothing. -/
def clear (p : AudioBufferPool) (h : AudioBufferHandle) : Except Fault AudioBufferPool :=
  if h._length = 0 then .ok p
  else
    match h._data with
    | none => .error .null_deref
    | some q =>
      if q.block ≠ p.data_block then .error .use_after_free
      else if 0 ≤ q.off ∧ q.off + h._length ≤ p.data_size then
        .ok { p with data := fun a => if q.off ≤ (a : Int) ∧ (a : Int) < q.off + h._length then 0
                                      else p.data a }
      else .error .out_of_bounds

/-- Source `AudioBufferHandle slice(int idx, int length = -1)`. In `_length - idx` the `int` is converted
to `std::size_t` and the difference is taken modulo `2 ^ 64`; assigning it to `length` narrows it
to `int`; `std::size_t(length)` converts back. -/
def slice (p : AudioBufferPool) (h : AudioBufferHandle) (idx : Int) (length : Int) :
    Except Fault (AudioBufferPool × AudioBufferHandle) :=
  let length1 : Int :=
    if length < 0 then to_int ((h._length + (SIZE_RANGE - to_size_t idx)) % SIZE_RANGE) else length
  match h._reference_count with
  | none => .error .null_deref
  | some i => construct p (ptr_add h._data idx) (to_size_t length1) i

/-- Source `AudioBufferHandle& operator=(AudioBufferHandle&& rhs)` for `rhs` a different object
from `*this`: the assigned-to handle and `rhs` afterwards. The old fields of `*this` are
overwritten; no count is touched. -/
def move_assign (_this rhs : AudioBufferHandle) : AudioBufferHandle × AudioBufferHandle :=
  ({ _data := rhs._data, _length := rhs._length, _reference_count := rhs._reference_count },
   { rhs with _data := none, _reference_count := none })

/-- Source `AudioBufferHandle& operator=(const AudioBufferHandle& rhs)`: the pool and the
assigned-to handle afterwards. The old fields of `*this` are overwritten, then the count `rhs`
points to is incremented. -/
def copy_assign (p : AudioBufferPool) (_this rhs : AudioBufferHandle) :
    Except Fault (AudioBufferPool × AudioBufferHandle) :=
  match incr p rhs._reference_count with
  | .error e => .error e
  | .ok p1 =>
    .ok (p1, { _data := rhs._data, _length := rhs._length, _reference_count := rhs._reference_count })

end AudioBufferHandle

/-- Source `std::vector<int>::resize(n, v)`: keeps the first `n` elements and appends copies of `v`
only if the vector is shorter than `n`. -/
def vector_resize (l : List Int) (n : Nat) (v : Int) : List Int :=
  l.take n ++ List.replicate (n - l.length) v

namespace AudioBufferPool

/-- Source `void reserve(std::size_t n)`. `make_unique<float[]>` makes a new zeroed array of
`n * buffer_size` elements (the product is taken in `std::size_t`); the allocation is assumed to
succeed. -/
def reserve (p : AudioBufferPool) (n : Nat) : AudioBufferPool :=
  { p with
    data_block := p.data_block + 1
    data_size := (n * p.buffer_size) % SIZE_RANGE
    data := fun _ => 0
    _avaliable_buffers := n
    reference_counts := vector_resize p.reference_counts n 0 }

/-- Source `AudioBufferPool(std::size_t buffer_size)`: default member initialisers, then `reserve`. -/
def construct (buffer_size : Nat) : AudioBufferPool :=
  reserve
    { buffer_size := buffer_size
      reference_counts := []
      _avaliable_buffers := 0
      data_block := 0
      data_size := 0
      data := fun _ => 0
      _max_val := SIZE_RANGE - 1 }
    number_of_buffers

/-- The scan of the `for` loop of `allocate` from index `i` on: the first index whose count
is `< 1`. -/
def first_free : List Int → Nat → Option Nat
  | [], _ => none
  | c :: cs, i => if c < 1 then some i else first_free cs (i + 1)

/-- Source `AudioBufferHandle allocate()`. -/
def allocate (p : AudioBufferPool) : Except Fault (AudioBufferPool × AudioBufferHandle) :=
  match first_free p.reference_counts 0 with
  | none => .error .terminate
  | some i =>
    let p1 := { p with _max_val := if i > p._max_val then i else p._max_val }
    let p2 := { p1 with reference_counts := p1.reference_counts.set i 0 }
    let index : Int := to_int ((i * p2.buffer_size) % SIZE_RANGE)
    AudioBufferHandle.construct p2 (some { block := p2.data_block, off := index }) p2.buffer_size i

/-- Source `AudioBufferHandle allocate_clear()`. -/
def allocate_clear (p : AudioBufferPool) : Except Fault (AudioBufferPool × AudioBufferHandle) :=
  match allocate p with
  | .error e => .error e
  | .ok (p1, res) =>
    match AudioBufferHandle.clear p1 res with
    | .error e => .error e
    | .ok p2 => .ok (p2, res)

/-- Source `void set_buffer_size(std::size_t bs)`. -/
def set_buffer_size (p : AudioBufferPool) (bs : Nat) : AudioBufferPool :=
  reserve { p with buffer_size := bs } number_of_buffers

end AudioBufferPool

/-! ## Programs over a pool: sequences of handle operations -/

/-- The pool together with the handle objects that currently exist (null ones included).
The first component of an entry is a ghost tag that is not in the source: the number of the
`allocate()` call the handle descends from (copies, moved-to handles and slices inherit it). -/
structure World where
  pool : AudioBufferPool
  handles : List (Nat × AudioBufferHandle)
  allocations : Nat

/-- One operation of a client of the pool; `k` is the position of the handle operated on. -/
inductive Op where
  | allocate
  | copy (k : Nat)
  | move (k : Nat)
  | slice (k : Nat) (idx : Int) (length : Int)
  | release (k : Nat)
  | destroy (k : Nat)
  deriving DecidableEq, Repr

/-- The world right after `AudioBufferPool(buffer_size)`. -/
def World.init (buffer_size : Nat) : World :=
  { pool := AudioBufferPool.construct buffer_size, handles := [], allocations := 0 }

/-- Effect of one operation. `none` when the operation names no handle, passes a value that is
not an `int`, or when the source faults. -/
def World.step (w : World) : Op → Option World
  | .allocate =>
    match AudioBufferPool.allocate w.pool with
    | .ok (p, h) =>
      some { pool := p, handles := w.handles ++ [(w.allocations, h)],
             allocations := w.allocations + 1 }
    | .error _ => none
  | .copy k =>
    match w.handles[k]? with
    | none => none
    | some (o, h) =>
      match AudioBufferHandle.copy_construct w.pool h with
      | .ok (p, h1) => some { w with pool := p, handles := w.handles ++ [(o, h1)] }
      | .error _ => none
  | .move k =>
    match w.handles[k]? with
    | none => none
    | some (o, h) =>
      some { w with handles := w.handles.set k (o, (AudioBufferHandle.move_construct h).2)
                                  ++ [(o, (AudioBufferHandle.move_construct h).1)] }
  | .slice k idx length =>
    match w.handles[k]? with
    | none => none
    | some (o, h) =>
      if INT_MIN ≤ idx ∧ idx ≤ INT_MAX ∧ INT_MIN ≤ length ∧ length ≤ INT_MAX then
        match AudioBufferHandle.slice w.pool h idx length with
        | .ok (p, h1) => some { w with pool := p, handles := w.handles ++ [(o, h1)] }
        | .error _ => none
      else none
  | .release k =>
    match w.handles[k]? with
    | none => none
    | some (o, h) =>
      match AudioBufferHandle.release w.pool h with
      | .ok (p, h1) => some { w with pool := p, handles := w.handles.set k (o, h1) }
      | .error _ => none
  | .destroy k =>
    match w.handles[k]? with
    | none => none
    | some (_, h) =>
      match AudioBufferHandle.destroy w.pool h with
      | .ok p => some { w with pool := p, handles := w.handles.eraseIdx k }
      | .error _ => none

/-- Effect of a sequence of operations, left to right. -/
def World.run (w : World) : List Op → Option World
  | [] => some w
  | op :: ops =>
    match w.step op with
    | none => none
    | some w1 => w1.run ops

/-- Number of existing handles that point to count cell `i`. -/
def live_refs (hs : List (Nat × AudioBufferHandle)) (i : Nat) : Nat :=
  hs.countP fun x => decide (x.2._reference_count = some i)

/-- Calls `allocate()` `n` times in a row, keeping every returned handle. -/
def allocate_n (p : AudioBufferPool) : Nat → Except Fault (AudioBufferPool × List AudioBufferHandle)
  | 0 => .ok (p, [])
  | n + 1 =>
    match AudioBufferPool.allocate p with
    | .error e => .error e
    | .ok (p1, h) =>
      match allocate_n p1 n with
      | .error e => .error e
      | .ok (p2, hs) => .ok (p2, h :: hs)

/-- The reference-count discipline of a world: every count is the number of existing handles
that point to its cell, every handle points to a cell that exists, and handles that share a
cell descend from the same `allocate()` call. -/
structure RefInv (rc : List Int) (hs : List (Nat × AudioBufferHandle)) : Prop where
  counts : ∀ i c, rc[i]? = some c → c = (live_refs hs i : Int)
  bound : ∀ x ∈ hs, ∀ i, x.2._reference_count = some i → i < rc.length
  origin : ∀ x ∈ hs, ∀ y ∈ hs, ∀ i, x.2._reference_count = some i →
    y.2._reference_count = some i → x.1 = y.1

/-! ## Concrete states used by the examples -/

/-- The pool `AudioBufferPool(64)` after one `allocate()`. -/
def pool_one_live : AudioBufferPool :=
  { AudioBufferPool.construct 64 with reference_counts := [1, 0, 0, 0, 0, 0, 0, 0] }

/-- The handle that first `allocate()` returns: slot 0 of a pool of block length 64. -/
def handle_slot0 : AudioBufferHandle :=
  { _data := some { block := 1, off := 0 }, _length := 64, _reference_count := some 0 }

/-- The pool `AudioBufferPool(128)` after one `allocate()`. -/
def pool_one_live_128 : AudioBufferPool :=
  { AudioBufferPool.construct 128 with reference_counts := [1, 0, 0, 0, 0, 0, 0, 0] }

/-- The handle that first `allocate()` returns: slot 0 of a pool of block length 128. -/
def handle_slot0_128 : AudioBufferHandle :=
  { _data := some { block := 1, off := 0 }, _length := 128, _reference_count := some 0 }

/-- A handle to slot 1 of a pool of block length 64. -/
def handle_slot1 : AudioBufferHandle :=
  { _data := some { block := 1, off := 64 }, _length := 64, _reference_count := some 1 }

/-- A pool of block length 64 whose count 0 is `INT_MAX` and whose count 1 is `INT_MIN`. -/
def pool_at_int_limits : AudioBufferPool :=
  { AudioBufferPool.construct 64 with reference_counts := [INT_MAX, INT_MIN, 0, 0, 0, 0, 0, 0] }

/-- A client program: two allocations, a copy of the first handle, release of the first handle,
destruction of the second. -/
def sample_ops : List Op :=
  [.allocate, .allocate, .copy 0, .release 0, .destroy 1]

/-! ## Several buffers at once -/

/-- Modelled from the spec: `util::generate_array<NN>(f)`, whose definition is not among the
sources. It calls `f(0)`, ..., `f(NN - 1)` in this order, each call acting on the state the
previous one left, and collects the results in a `std::array` of `NN` elements; a fault of a
call is the fault of the whole. (The spec only says that `allocate_multi<K>()` reserves `K`
slots with the exhaustion policy of `allocate()` per slot.) -/
def generate_array {σ α : Type} (f : σ → Nat → Except Fault (σ × α)) (s : σ) (i : Nat) :
    Nat → Except Fault (σ × List α)
  | 0 => .ok (s, [])
  | n + 1 =>
    match f s i with
    | .error e => .error e
    | .ok (s1, a) =>
      match generate_array f s1 (i + 1) n with
      | .error e => .error e
      | .ok (s2, as) => .ok (s2, a :: as)

/-- Source `std::array<AudioBufferHandle, NN> allocate_multi()`. -/
def AudioBufferPool.allocate_multi (NN : Nat) (p : AudioBufferPool) :
    Except Fault (AudioBufferPool × List AudioBufferHandle) :=
  generate_array (fun q _ => AudioBufferPool.allocate q) p 0 NN

/-- Source `std::array<AudioBufferHandle, NN> allocate_multi_clear()`. -/
def AudioBufferPool.allocate_multi_clear (NN : Nat) (p : AudioBufferPool) :
    Except Fault (AudioBufferPool × List AudioBufferHandle) :=
  generate_array (fun q _ => AudioBufferPool.allocate_clear q) p 0 NN

/-- The indices, from `i` on and in increasing order, of the slots whose count is `< 1`. -/
def free_slots : List Int → Nat → List Nat
  | [], _ => []
  | c :: cs, i => if c < 1 then i :: free_slots cs (i + 1) else free_slots cs (i + 1)

/-- The sample range `[off, off + length)` a handle views, `none` for a null handle. -/
def AudioBufferHandle.range (h : AudioBufferHandle) : Option (Int × Int) :=
  h._data.map fun q => (q.off, q.off + h._length)

/-- The handle `allocate()` builds for slot `i` of the pool `p`. -/
def AudioBufferPool.slot_handle (p : AudioBufferPool) (i : Nat) : AudioBufferHandle :=
  { _data := some { block := p.data_block, off := to_int ((i * p.buffer_size) % SIZE_RANGE) },
    _length := p.buffer_size, _reference_count := some i }

/-! ## Assignment between handles -/

/-- The value of count `i`, taken as 0 where the vector has no such element. -/
def count_at (rc : List Int) (i : Nat) : Int := (rc[i]?).getD 0

/-- One operation of a client of the pool, assignment between handles and resizing of the pool
included. `copy_assign k1 k2` is `handles[k1] = handles[k2]`, `move_assign k1 k2` is
`handles[k1] = std::move(handles[k2])`. -/
inductive Op2 where
  | base (op : Op)
  | copy_assign (k1 k2 : Nat)
  | move_assign (k1 k2 : Nat)
  | set_buffer_size (bs : Nat)
  deriving DecidableEq, Repr

/-- Effect of one operation of `Op2`. The assigned-to handle takes over the ghost tag of the
handle assigned from. In a move assignment of a handle to itself the object ends up null, as in
the source, where the fields are nulled last. -/
def World.step2 (w : World) : Op2 → Option World
  | .base op => w.step op
  | .copy_assign k1 k2 =>
    match w.handles[k1]?, w.handles[k2]? with
    | some (_, b), some (oa, a) =>
      match AudioBufferHandle.copy_assign w.pool b a with
      | .ok (p, b1) => some { w with pool := p, handles := w.handles.set k1 (oa, b1) }
      | .error _ => none
    | _, _ => none
  | .move_assign k1 k2 =>
    match w.handles[k1]?, w.handles[k2]? with
    | some (_, b), some (oa, a) =>
      some { w with handles := (w.handles.set k1 (oa, (AudioBufferHandle.move_assign b a).1)).set
                                  k2 (oa, (AudioBufferHandle.move_assign b a).2) }
    | _, _ => none
  | .set_buffer_size bs =>
    if bs < SIZE_RANGE then some { w with pool := w.pool.set_buffer_size bs } else none

/-- Effect of a sequence of operations of `Op2`, left to right. -/
def World.run2 (w : World) : List Op2 → Option World
  | [] => some w
  | op :: ops =>
    match w.step2 op with
    | none => none
    | some w1 => w1.run2 ops

/-- By how much count `s` exceeds the number of existing handles that point to cell `s`. -/
def World.gap (w : World) (s : Nat) : Int :=
  count_at w.pool.reference_counts s - live_refs w.handles s

/-- A pool of block length 64 in which count 0 is `INT_MAX` and count 1 is 1. -/
def pool_slot0_at_int_max : AudioBufferPool :=
  { AudioBufferPool.construct 64 with reference_counts := [INT_MAX, 1, 0, 0, 0, 0, 0, 0] }

/-- A continuation of `leak_ops`: both handles are destroyed, the pool is resized and two
buffers are allocated. -/
def after_leak_ops : List Op2 :=
  [.base (.destroy 1), .base (.destroy 0), .set_buffer_size 32, .base .allocate, .base .allocate]

/-! ## The processing orchestrator `DefaultEngineManager::process` -/

/-- Stands for `midi::shared_vector<midi::AnyMidiEvent>`; it holds no buffer handle. -/
abbrev Midi := List Nat

/-- Data members of `ProcessData<0>`. -/
structure ProcessData0 where
  midi : Midi
  nframes : Int

/-- Data members of `ProcessData<1>`. -/
structure ProcessData1 where
  audio : AudioBufferHandle
  midi : Midi
  nframes : Int

/-- Data members of `ProcessData<2>`; `audio` is the `std::array` of two handles. -/
structure ProcessData2 where
  audio : AudioBufferHandle × AudioBufferHandle
  midi : Midi
  nframes : Int

/-- Whether a handle points to count cell `i`, as 1 or 0. -/
def ref_at (h : AudioBufferHandle) (i : Nat) : Int :=
  if h._reference_count = some i then 1 else 0

/-- Number of handles of a `ProcessData<0>` that point to cell `i`: none. -/
def ProcessData0.refs (_x : ProcessData0) (_i : Nat) : Int := 0

/-- Number of handles of a `ProcessData<1>` that point to cell `i`. -/
def ProcessData1.refs (x : ProcessData1) (i : Nat) : Int := ref_at x.audio i

/-- Number of handles of a `ProcessData<2>` that point to cell `i`. -/
def ProcessData2.refs (x : ProcessData2) (i : Nat) : Int :=
  ref_at x.audio.1 i + ref_at x.audio.2 i

/-- Modelled from the spec: `ProcessData<1>::midi_only()`, whose body (processor.inl) is not
among the sources. The derived envelope keeps the MIDI stream and the frame count and omits
the buffer handle. -/
def ProcessData1.midi_only (x : ProcessData1) : ProcessData0 :=
  { midi := x.midi, nframes := x.nframes }

/-- Modelled from the spec: the constructors `ProcessData<1>(AudioBufferHandle audio, midi,
nframes)` and `ProcessData<1>(AudioBufferHandle audio)`, declared in processor.hpp with bodies
(processor.inl) that are not among the sources. The handle is taken by value, so the parameter
is a copy of the argument (the spec: copying a handle increments its count); the member
`audio` is initialised as a copy of the parameter; the parameter is destroyed when the
constructor is done. -/
def ProcessData1.construct (p : AudioBufferPool) (audio : AudioBufferHandle) (midi : Midi)
    (nframes : Int) : Except Fault (AudioBufferPool × ProcessData1) := do
  let (p, param) ← AudioBufferHandle.copy_construct p audio
  let (p, member) ← AudioBufferHandle.copy_construct p param
  let p ← AudioBufferHandle.destroy p param
  pure (p, { audio := member, midi := midi, nframes := nframes })

/-- The implicit move constructor of `ProcessData<2>`: the new envelope and `rhs` afterwards. -/
def ProcessData2.move_construct (rhs : ProcessData2) : ProcessData2 × ProcessData2 :=
  ({ audio := ((AudioBufferHandle.move_construct rhs.audio.1).1,
               (AudioBufferHandle.move_construct rhs.audio.2).1),
     midi := rhs.midi, nframes := rhs.nframes },
   { rhs with audio := ((AudioBufferHandle.move_construct rhs.audio.1).2,
                        (AudioBufferHandle.move_construct rhs.audio.2).2) })

/-- The implicit destructor of `ProcessData<1>`. -/
def ProcessData1.destroy (p : AudioBufferPool) (x : ProcessData1) : Except Fault AudioBufferPool :=
  AudioBufferHandle.destroy p x.audio

/-- The implicit destructor of `ProcessData<2>`: the array elements are destroyed last to
first. -/
def ProcessData2.destroy (p : AudioBufferPool) (x : ProcessData2) :
    Except Fault AudioBufferPool := do
  let p ← AudioBufferHandle.destroy p x.audio.2
  AudioBufferHandle.destroy p x.audio.1

/-- An engine's `process`, which is outside the sources and is a parameter of the model: from
the pool and the argument object it receives to the pool afterwards, the envelope it returns
and the argument object as the call leaves it (which the caller side then destroys). -/
abbrev Engine (α β : Type) := AudioBufferPool → α → Except Fault (AudioBufferPool × β × α)

/-- The assumption on an engine call: it changes slot counts only through the handles it
receives and returns. For every slot whose count covers the handles of the argument, the count
after the call is the count before, minus the handles the argument had on the slot, plus the
handles the returned envelope and the argument have on it afterwards. The number of counts
does not change. -/
def Engine.accounts {α β : Type} (E : Engine α β) (ra : α → Nat → Int) (rb : β → Nat → Int) :
    Prop :=
  ∀ p x p1 y x1, E p x = .ok (p1, y, x1) →
    p1.reference_counts.length = p.reference_counts.length ∧
    ∀ i, ra x i ≤ count_at p.reference_counts i →
      count_at p1.reference_counts i = count_at p.reference_counts i - ra x i + rb y i + ra x1 i

/-- The statements of `DefaultEngineManager::process` from `auto fx1_bus = ...allocate()` to
the end of the function. `p` and `synth_out` are the pool and the local `synth_out` immediately
before the two `allocate()` calls. The two `for` loops only read and write samples and are
modelled as unspecified updates `write1`, `write2` of the bank. -/
def process_send (effect1 effect2 : Engine ProcessData1 ProcessData2)
    (master : Engine ProcessData2 ProcessData2) (write1 write2 : (Nat → Sample) → Nat → Sample)
    (p : AudioBufferPool) (synth_out : ProcessData1) :
    Except Fault (AudioBufferPool × ProcessData2) := do
  let (p, fx1_bus) ← AudioBufferPool.allocate p
  let (p, fx2_bus) ← AudioBufferPool.allocate p
  let p := { p with data := write1 p.data }
  -- auto fx1_out = effect1->process(audio::ProcessData<1>(fx1_bus));
  let (p, tmp1) ← ProcessData1.construct p fx1_bus [] fx1_bus.size
  let (p, fx1_out, tmp1) ← effect1 p tmp1
  let p ← ProcessData1.destroy p tmp1
  -- auto fx2_out = effect2->process(audio::ProcessData<1>(fx2_bus));
  let (p, tmp2) ← ProcessData1.construct p fx2_bus [] fx2_bus.size
  let (p, fx2_out, tmp2) ← effect2 p tmp2
  let p ← ProcessData1.destroy p tmp2
  let p := { p with data := write2 p.data }
  let (p, synth_audio) ← AudioBufferHandle.release p synth_out.audio
  let (p, fx2_audio0) ← AudioBufferHandle.release p fx2_out.audio.1
  let (p, fx2_audio1) ← AudioBufferHandle.release p fx2_out.audio.2
  let (p, fx1_bus) ← AudioBufferHandle.release p fx1_bus
  let (p, fx2_bus) ← AudioBufferHandle.release p fx2_bus
  -- return master.process(std::move(fx1_out));
  let (p, result, param) ← master p (ProcessData2.move_construct fx1_out).1
  let p ← ProcessData2.destroy p param
  -- the locals are destroyed, last declared first
  let p ← ProcessData2.destroy p { fx2_out with audio := (fx2_audio0, fx2_audio1) }
  let p ← ProcessData2.destroy p (ProcessData2.move_construct fx1_out).2
  let p ← AudioBufferHandle.destroy p fx2_bus
  let p ← AudioBufferHandle.destroy p fx1_bus
  let p ← ProcessData1.destroy p { synth_out with audio := synth_audio }
  pure (p, result)

/-- Source `audio::ProcessData<2> DefaultEngineManager::process(audio::ProcessData<1>
external_in)`. The engines are parameters. -/
def process (arpeggiator : Engine ProcessData0 ProcessData0)
    (synth : Engine ProcessData1 ProcessData1)
    (effect1 effect2 : Engine ProcessData1 ProcessData2)
    (master : Engine ProcessData2 ProcessData2) (write1 write2 : (Nat → Sample) → Nat → Sample)
    (p : AudioBufferPool) (external_in : ProcessData1) :
    Except Fault (AudioBufferPool × ProcessData2) := do
  let midi_in := external_in.midi_only
  let (p, arp_out, _) ← arpeggiator p midi_in
  -- auto synth_out = synth->process({external_in.audio, arp_out.midi, external_in.nframes});
  let (p, tmp) ← ProcessData1.construct p external_in.audio arp_out.midi external_in.nframes
  let (p, synth_out, tmp) ← synth p tmp
  let p ← ProcessData1.destroy p tmp
  process_send effect1 effect2 master write1 write2 p synth_out

/-! ### Engines used in the examples -/

/-- An arpeggiator that passes its input on. -/
def arp_through : Engine ProcessData0 ProcessData0 :=
  fun p x => .ok (p, x, x)

/-- An engine that gets one buffer from the pool and returns it as its output. -/
def engine_allocating1 : Engine ProcessData1 ProcessData1 :=
  fun p x =>
    match AudioBufferPool.allocate p with
    | .error e => .error e
    | .ok (p1, h) => .ok (p1, { audio := h, midi := x.midi, nframes := x.nframes }, x)

/-- An engine that gets two buffers from the pool and returns them as its output, the way the
effect engines redirect their input to fresh buffers. -/
def engine_allocating2 {α : Type} (midi : α → Midi) (nframes : α → Int) :
    Engine α ProcessData2 :=
  fun p x =>
    match AudioBufferPool.allocate p with
    | .error e => .error e
    | .ok (p1, h0) =>
      match AudioBufferPool.allocate p1 with
      | .error e => .error e
      | .ok (p2, h1) => .ok (p2, { audio := (h0, h1), midi := midi x, nframes := nframes x }, x)

/-- A master stage that works in place: it returns the envelope it received, moved. -/
def master_in_place : Engine ProcessData2 ProcessData2 :=
  fun p x => .ok (p, (ProcessData2.move_construct x).1, (ProcessData2.move_construct x).2)

/-- The external input of the examples: the first buffer of a pool of block length 64. -/
def external_input : ProcessData1 :=
  { audio := handle_slot0, midi := [], nframes := 64 }

/-- The pool of the examples immediately before the two `allocate()` calls of `process`: slot 0
holds the external input, slot 1 the output of the synth. -/
def pool_before_buses : AudioBufferPool :=
  { AudioBufferPool.construct 64 with reference_counts := [1, 1, 0, 0, 0, 0, 0, 0] }

/-- The local `synth_out` of the examples. -/
def synth_output : ProcessData1 :=
  { audio := handle_slot1, midi := [], nframes := 64 }

/-! ## Handles and the block of their slot -/

/-- Whether an operation respects the documented precondition of `slice` in the world it is run
in: `idx` in `[0, _length)`, and `length` negative (the default) or in `[0, _length - idx]`. The
other operations take no argument with a precondition. -/
def World.op_in_contract (w : World) : Op → Bool
  | .slice k idx length =>
    match w.handles[k]? with
    | none => true
    | some (_, h) =>
      decide (0 ≤ idx ∧ idx < h._length ∧ (length < 0 ∨ length ≤ (h._length : Int) - idx))
  | _ => true

/-- Whether every operation of a sequence respects the precondition of `slice` in the world it
is run in. -/
def World.run_in_contract (w : World) : List Op → Bool
  | [] => true
  | op :: ops =>
    w.op_in_contract op &&
      match w.step op with
      | none => true
      | some w1 => w1.run_in_contract ops

/-- The range discipline of a world over a pool of block length `bs`: the pool has its 8 slots
of `bs` samples, and every existing handle that points to count cell `i` has a data pointer
into the current bank and views a range inside `[i * bs, (i + 1) * bs)`, the block of slot `i`. -/
structure RangeInv (bs : Nat) (w : World) : Prop where
  buffer_size : w.pool.buffer_size = bs
  slots : w.pool.reference_counts.length = number_of_buffers
  block : w.pool.data_block = 1
  ranges : ∀ x ∈ w.handles, ∀ i, x.2._reference_count = some i →
    ∃ q, x.2._data = some q ∧ q.block = 1 ∧ ((i * bs : Nat) : Int) ≤ q.off ∧
      q.off + x.2._length ≤ (((i + 1) * bs : Nat) : Int)

/-- A client program: two allocations, a slice of the first handle, a slice of that slice with
the default length, a copy of the second handle, release of the first handle. -/
def sliced_ops : List Op :=
  [.allocate, .allocate, .slice 0 16 32, .slice 2 8 (-1), .copy 1, .release 0]

/-! ### A bank that holds non-zero samples -/

/-- A bank content without a zero: sample `a` holds `a + 1`. -/
def ramp (a : Nat) : Sample := (a : Int) + 1

/-- The pool `AudioBufferPool(64)` with every slot free and the ramp in its bank. -/
def pool_ramp_free : AudioBufferPool :=
  { AudioBufferPool.construct 64 with data := ramp }

/-- The pool `pool_ramp_free` after one `allocate()`. -/
def pool_ramp : AudioBufferPool :=
  { pool_one_live with data := ramp }

/-- The pool `pool_ramp` after a slice of the handle of slot 0 was taken. -/
def pool_ramp_sliced : AudioBufferPool :=
  { pool_ramp with reference_counts := [2, 0, 0, 0, 0, 0, 0, 0] }

/-- The slice `handle_slot0.slice(16, 32)`: samples `[16, 48)` of slot 0. -/
def handle_slice_16_32 : AudioBufferHandle :=
  { _data := some { block := 1, off := 16 }, _length := 32, _reference_count := some 0 }

/-! ## Basic facts about the operations -/

open AudioBufferPool AudioBufferHandle

/-- Incrementing an existing count below `INT_MAX` succeeds. -/
theorem incr_some_ok (p : AudioBufferPool) (i : Nat) (c : Int)
    (hc : p.reference_counts[i]? = some c) (hlt : c < INT_MAX) :
    incr p (some i) = .ok { p with reference_counts := p.reference_counts.set i (c + 1) } := by
  simp [incr, hc, hlt]

/-- What a successful increment did. -/
theorem incr_ok_inv {p p1 : AudioBufferPool} {cell : Option Nat} (h : incr p cell = .ok p1) :
    ∃ i c, cell = some i ∧ p.reference_counts[i]? = some c ∧ c < INT_MAX ∧
      p1 = { p with reference_counts := p.reference_counts.set i (c + 1) } := by
  unfold incr at h
  split at h
  · cases h
  · rename_i i
    split at h
    · cases h
    · rename_i c hc
      split at h
      · rename_i hlt
        exact ⟨i, c, rfl, hc, hlt, by cases h; rfl⟩
      · cases h

/-- Decrementing an existing count above `INT_MIN` succeeds. -/
theorem decr_some_ok (p : AudioBufferPool) (i : Nat) (c : Int)
    (hc : p.reference_counts[i]? = some c) (hlt : INT_MIN < c) :
    decr p (some i) = .ok { p with reference_counts := p.reference_counts.set i (c - 1) } := by
  simp [decr, hc, hlt]

/-- What a successful decrement did. -/
theorem decr_ok_inv {p p1 : AudioBufferPool} {cell : Option Nat} (h : decr p cell = .ok p1) :
    ∃ i c, cell = some i ∧ p.reference_counts[i]? = some c ∧ INT_MIN < c ∧
      p1 = { p with reference_counts := p.reference_counts.set i (c - 1) } := by
  unfold decr at h
  split at h
  · cases h
  · rename_i i
    split at h
    · cases h
    · rename_i c hc
      split at h
      · rename_i hlt
        exact ⟨i, c, rfl, hc, hlt, by cases h; rfl⟩
      · cases h

/-- Narrowing to `int` keeps a value that fits. -/
theorem to_int_of_le (n : Nat) (h : (n : Int) ≤ INT_MAX) : to_int n = n := by
  unfold to_int
  unfold INT_MAX at h
  have e1 : (2 : Nat) ^ 32 = 4294967296 := by norm_num
  have e2 : (2 : Nat) ^ 31 = 2147483648 := by norm_num
  rw [e1, e2]
  have hn : n % 4294967296 = n := by omega
  rw [hn]
  have : n < 2147483648 := by omega
  simp [this]

/-- Conversion to `std::size_t` keeps a value in range. -/
theorem to_size_t_of_nonneg (z : Int) (h0 : 0 ≤ z) (h1 : z < SIZE_RANGE) :
    ((to_size_t z : Nat) : Int) = z := by
  unfold to_size_t
  unfold SIZE_RANGE at h1
  have e : ((2 : Int) ^ 64) = 18446744073709551616 := by norm_num
  have e1 : (((2 : Nat) ^ 64 : Nat) : Int) = 18446744073709551616 := by norm_num
  rw [e]
  rw [e1] at h1
  omega

/-- Conversion to `std::size_t` keeps a natural number in range. -/
theorem to_size_t_natCast (n : Nat) (h1 : n < SIZE_RANGE) : to_size_t (n : Int) = n := by
  have := to_size_t_of_nonneg (n : Int) (by omega) (by exact_mod_cast h1)
  exact_mod_cast this

theorem getElem?_set_cases (l : List Int) (i j : Nat) (v c : Int)
    (h : (l.set i v)[j]? = some c) : (j = i ∧ c = v) ∨ (j ≠ i ∧ l[j]? = some c) := by
  by_cases hij : i = j
  · subst hij
    left
    have hlen : i < l.length := by
      by_contra hcon
      rw [List.getElem?_eq_none (by simpa using hcon)] at h
      cases h
    simp [hlen] at h
    exact ⟨rfl, h.symm⟩
  · right
    rw [List.getElem?_set_ne hij] at h
    exact ⟨fun e => hij e.symm, h⟩

theorem getElem?_set_self_of_some (l : List Int) (i : Nat) (c v : Int) (hc : l[i]? = some c) :
    (l.set i v)[i]? = some v := by
  have hlen : i < l.length := by
    by_contra hcon
    rw [List.getElem?_eq_none (by omega)] at hc
    cases hc
  simp [hlen]

theorem getElem?_set_other (l : List Int) (i j : Nat) (v : Int) (hne : j ≠ i) :
    (l.set i v)[j]? = l[j]? :=
  List.getElem?_set_ne (fun e => hne e.symm)

theorem set_set_back (l : List Int) (i : Nat) (c v : Int) (hc : l[i]? = some c) :
    (l.set i v).set i c = l := by
  apply List.ext_getElem?
  intro j
  by_cases hj : j = i
  · subst hj
    rw [getElem?_set_self_of_some (l.set j v) j v c (getElem?_set_self_of_some l j c v hc), hc]
  · rw [getElem?_set_other _ _ _ _ hj, getElem?_set_other _ _ _ _ hj]

theorem pool_set_set_back (p : AudioBufferPool) (i : Nat) (c v : Int)
    (hc : p.reference_counts[i]? = some c) :
    { p with reference_counts := (p.reference_counts.set i v).set i c } = p := by
  rw [set_set_back p.reference_counts i c v hc]

/-- The scan finds nothing exactly when every count is at least 1. -/
theorem first_free_none (l : List Int) (n : Nat) :
    first_free l n = none ↔ ∀ c ∈ l, 1 ≤ c := by
  induction l generalizing n with
  | nil => simp [first_free]
  | cons c cs ih =>
    unfold first_free
    by_cases hc : c < 1
    · simp [hc]
    · simp [hc, ih]
      omega

/-- The scan returns the first index whose count is below 1. -/
theorem first_free_some {l : List Int} {n i : Nat} (h : first_free l n = some i) :
    n ≤ i ∧ (∃ c, l[i - n]? = some c ∧ c < 1) ∧
      ∀ j, j < i - n → ∀ d, l[j]? = some d → 1 ≤ d := by
  induction l generalizing n with
  | nil => simp [first_free] at h
  | cons c cs ih =>
    unfold first_free at h
    by_cases hc : c < 1
    · simp [hc] at h
      subst h
      simp [hc]
    · simp [hc] at h
      obtain ⟨h1, ⟨c', h2, h3⟩, h4⟩ := ih h
      have e : i - n = (i - (n + 1)) + 1 := by omega
      refine ⟨by omega, ⟨c', ?_, h3⟩, ?_⟩
      · rw [e]; simpa using h2
      · intro j hj d hd
        cases j with
        | zero => simp at hd; omega
        | succ j =>
          simp at hd
          exact h4 j (by omega) d hd

/-- The scan finds a slot as soon as some count is below 1. -/
theorem first_free_isSome_of_mem {l : List Int} (n : Nat) {c : Int} (hc : c ∈ l) (h1 : c < 1) :
    ∃ i, first_free l n = some i := by
  cases h : first_free l n with
  | some i => exact ⟨i, rfl⟩
  | none =>
    have := (first_free_none l n).1 h c hc
    omega

/-- The scan returns the lowest index whose count is below 1. -/
theorem first_free_eq {l : List Int} {i : Nat} {c : Int} (hc : l[i]? = some c) (h1 : c < 1)
    (hlow : ∀ j, j < i → ∀ d, l[j]? = some d → 1 ≤ d) : first_free l 0 = some i := by
  obtain ⟨k, hk⟩ := first_free_isSome_of_mem 0 (List.mem_iff_getElem?.2 ⟨i, hc⟩) h1
  obtain ⟨-, ⟨d, hd, hd1⟩, hbelow⟩ := first_free_some hk
  simp only [Nat.sub_zero] at hd hbelow
  rcases Nat.lt_trichotomy k i with hlt | heq | hgt
  · have := hlow k hlt d hd
    omega
  · rw [hk, heq]
  · have := hbelow i hgt c hc
    omega

/-- What a successful `allocate()` did. -/
theorem allocate_ok_inv {p p1 : AudioBufferPool} {h : AudioBufferHandle}
    (ha : allocate p = .ok (p1, h)) :
    ∃ i c, first_free p.reference_counts 0 = some i ∧ p.reference_counts[i]? = some c ∧ c < 1 ∧
      p1 = { p with _max_val := if i > p._max_val then i else p._max_val,
                    reference_counts := p.reference_counts.set i 1 } ∧
      h = { _data := some { block := p.data_block,
                            off := to_int ((i * p.buffer_size) % SIZE_RANGE) },
            _length := p.buffer_size, _reference_count := some i } := by
  unfold allocate at ha
  split at ha
  · cases ha
  · rename_i i hi
    obtain ⟨_, ⟨c, hc, hc1⟩, _⟩ := first_free_some hi
    simp only [Nat.sub_zero] at hc
    have hlen : i < p.reference_counts.length := by
      by_contra hcon
      rw [List.getElem?_eq_none (by omega)] at hc
      cases hc
    refine ⟨i, c, hi, hc, hc1, ?_⟩
    simp [AudioBufferHandle.construct, incr, hlen, INT_MAX] at ha
    obtain ⟨h1, h2⟩ := ha
    subst h1 h2
    simp

/-- The result of `allocate()` when the scan finds slot `i`. -/
theorem allocate_of_first_free {p : AudioBufferPool} {i : Nat}
    (hi : first_free p.reference_counts 0 = some i) :
    allocate p = .ok
      ({ p with _max_val := if i > p._max_val then i else p._max_val,
                reference_counts := p.reference_counts.set i 1 },
       { _data := some { block := p.data_block,
                         off := to_int ((i * p.buffer_size) % SIZE_RANGE) },
         _length := p.buffer_size, _reference_count := some i }) := by
  obtain ⟨_, ⟨c, hc, hc1⟩, _⟩ := first_free_some hi
  simp only [Nat.sub_zero] at hc
  have hlen : i < p.reference_counts.length := by
    by_contra hcon
    rw [List.getElem?_eq_none (by omega)] at hc
    cases hc
  simp [allocate, hi, AudioBufferHandle.construct, incr, hlen, INT_MAX]

theorem construct_reference_counts (bs : Nat) :
    (AudioBufferPool.construct bs).reference_counts = [0, 0, 0, 0, 0, 0, 0, 0] := by
  rfl

/-- Outcome of `allocate()`: it terminates the program or returns. -/
theorem allocate_total (p : AudioBufferPool) :
    allocate p = .error .terminate ∨ ∃ p1 h, allocate p = .ok (p1, h) := by
  cases hf : first_free p.reference_counts 0 with
  | none => left; simp [allocate, hf]
  | some i => right; exact ⟨_, _, allocate_of_first_free hf⟩

/-- Exhaustion: `allocate()` is fatal exactly when no count is below 1. -/
theorem allocate_terminate_iff (p : AudioBufferPool) :
    allocate p = .error .terminate ↔ ∀ c ∈ p.reference_counts, 1 ≤ c := by
  rw [← first_free_none p.reference_counts 0]
  constructor
  · intro h
    cases hf : first_free p.reference_counts 0 with
    | none => rfl
    | some i => rw [allocate_of_first_free hf] at h; cases h
  · intro hf
    simp [allocate, hf]

theorem allocate_length {p p1 : AudioBufferPool} {h : AudioBufferHandle}
    (ha : allocate p = .ok (p1, h)) : p1.reference_counts.length = p.reference_counts.length := by
  obtain ⟨i, c, -, -, -, rfl, -⟩ := allocate_ok_inv ha
  simp

/-- A slot whose count is at least 1 is never handed out by `allocate()`. -/
theorem allocate_skips_slot_in_use {p p1 : AudioBufferPool} {g : AudioBufferHandle} {i : Nat}
    {c : Int} (hc : p.reference_counts[i]? = some c) (h1 : 1 ≤ c)
    (ha : allocate p = .ok (p1, g)) : g._reference_count ≠ some i := by
  obtain ⟨i1, c1, -, hc1, hlt, -, rfl⟩ := allocate_ok_inv ha
  intro e
  cases e
  rw [hc] at hc1
  cases hc1
  omega

/-- First fit: when the offset `i * buffer_size` fits an `int`, `allocate()` returns the lowest
free slot `i` with the range `[i * buffer_size, (i + 1) * buffer_size)`, sets its count to 1 and
changes no other count. -/
theorem allocate_first_fit (p : AudioBufferPool) (i : Nat) (c : Int)
    (hc : p.reference_counts[i]? = some c) (h1 : c < 1)
    (hlow : ∀ j, j < i → ∀ d, p.reference_counts[j]? = some d → 1 ≤ d)
    (hfit : ((i * p.buffer_size : Nat) : Int) ≤ INT_MAX) :
    ∃ p1 h, allocate p = .ok (p1, h) ∧
      h._reference_count = some i ∧
      h._data = some { block := p.data_block, off := ((i * p.buffer_size : Nat) : Int) } ∧
      h.size = p.buffer_size ∧
      p1.reference_counts[i]? = some 1 ∧
      (∀ j, j ≠ i → p1.reference_counts[j]? = p.reference_counts[j]?) ∧
      p1.buffer_size = p.buffer_size ∧ p1.data_block = p.data_block ∧
      p1.data_size = p.data_size ∧ p1.data = p.data := by
  have hff := first_free_eq hc h1 hlow
  have hlt : i * p.buffer_size < SIZE_RANGE := by
    unfold INT_MAX at hfit
    unfold SIZE_RANGE
    have : (2 : Nat) ^ 64 = 18446744073709551616 := by norm_num
    omega
  refine ⟨_, _, allocate_of_first_free hff, rfl, ?_, rfl,
    getElem?_set_self_of_some _ _ _ _ hc, fun j hj => getElem?_set_other _ _ _ _ hj,
    rfl, rfl, rfl, rfl⟩
  rw [Nat.mod_eq_of_lt hlt, to_int_of_le _ hfit]

/-- In a pool of 8 slots whose bank has `8 * buffer_size` samples, with `8 * buffer_size` small
enough for an `int`, the handle `allocate()` returns lies inside the bank. -/
theorem allocate_range_in_bank {p p1 : AudioBufferPool} {h : AudioBufferHandle}
    (hlen : p.reference_counts.length = number_of_buffers)
    (hsize : p.data_size = number_of_buffers * p.buffer_size)
    (hfit : ((number_of_buffers * p.buffer_size : Nat) : Int) ≤ INT_MAX)
    (ha : allocate p = .ok (p1, h)) :
    ∃ q, h._data = some q ∧ q.block = p1.data_block ∧ 0 ≤ q.off ∧
      q.off + h._length ≤ p1.data_size := by
  obtain ⟨i, c, -, hc, -, rfl, rfl⟩ := allocate_ok_inv ha
  have hi : i < number_of_buffers := by
    rw [← hlen]
    by_contra hcon
    rw [List.getElem?_eq_none (by omega)] at hc
    cases hc
  have hmul : (i + 1) * p.buffer_size ≤ number_of_buffers * p.buffer_size :=
    Nat.mul_le_mul_right _ (by omega)
  have hmul2 : i * p.buffer_size + p.buffer_size ≤ number_of_buffers * p.buffer_size := by
    rw [← Nat.succ_mul]
    exact hmul
  have hfit2 : ((i * p.buffer_size : Nat) : Int) ≤ INT_MAX := by omega
  have hlt : i * p.buffer_size < SIZE_RANGE := by
    unfold INT_MAX at hfit2
    unfold SIZE_RANGE
    have : (2 : Nat) ^ 64 = 18446744073709551616 := by norm_num
    omega
  refine ⟨_, rfl, rfl, ?_, ?_⟩
  · simp only
    rw [Nat.mod_eq_of_lt hlt, to_int_of_le _ hfit2]
    omega
  · simp only
    rw [Nat.mod_eq_of_lt hlt, to_int_of_le _ hfit2, hsize]
    omega

/-- Resizing a vector that already has `number_of_buffers` elements keeps every element, so
`set_buffer_size` leaves the counts as they were. -/
theorem set_buffer_size_reference_counts (p : AudioBufferPool) (n : Nat)
    (hlen : p.reference_counts.length = number_of_buffers) :
    (set_buffer_size p n).reference_counts = p.reference_counts := by
  simp [set_buffer_size, reserve, vector_resize, hlen]

/-- The result of `slice` on a live handle whose count can be incremented. -/
theorem slice_ok (p : AudioBufferPool) (h : AudioBufferHandle) (i : Nat) (c : Int)
    (idx len : Int) (hlive : h._reference_count = some i)
    (hc : p.reference_counts[i]? = some c) (hmax : c < INT_MAX) :
    AudioBufferHandle.slice p h idx len = .ok
      ({ p with reference_counts := p.reference_counts.set i (c + 1) },
       { _data := ptr_add h._data idx,
         _length := to_size_t
           (if len < 0 then to_int ((h._length + (SIZE_RANGE - to_size_t idx)) % SIZE_RANGE)
            else len),
         _reference_count := some i }) := by
  simp [AudioBufferHandle.slice, hlive, AudioBufferHandle.construct, incr_some_ok p i c hc hmax]

/-- Element `j` of a slice starting at `idx` is element `idx + j` of the parent. -/
theorem ptr_add_add (d : Option Ptr) (idx : Int) (j : Nat) (h0 : 0 ≤ idx) :
    ptr_add (ptr_add d idx) j = ptr_add d ((idx.toNat + j : Nat) : Int) := by
  cases d with
  | none => rfl
  | some q =>
    simp only [ptr_add, Option.map]
    congr 2
    push_cast
    rw [Int.toNat_of_nonneg h0]
    ring

/-- The default length of a slice is `_length - idx` when that fits an `int`. -/
theorem slice_default_length (L : Nat) (idx : Int) (hL : L < SIZE_RANGE) (h0 : 0 ≤ idx)
    (hidx : idx < L) (hfit : (L : Int) - idx ≤ INT_MAX) :
    ((to_size_t (to_int ((L + (SIZE_RANGE - to_size_t idx)) % SIZE_RANGE)) : Nat) : Int) =
      L - idx := by
  have hidx2 : idx < SIZE_RANGE := by
    have : (L : Int) < SIZE_RANGE := by exact_mod_cast hL
    omega
  have e1 := to_size_t_of_nonneg idx h0 hidx2
  have hle : to_size_t idx < L := by omega
  have e2 : (L + (SIZE_RANGE - to_size_t idx)) % SIZE_RANGE = L - to_size_t idx := by
    have : L + (SIZE_RANGE - to_size_t idx) = (L - to_size_t idx) + SIZE_RANGE := by omega
    rw [this, Nat.add_mod_right]
    exact Nat.mod_eq_of_lt (by omega)
  rw [e2]
  have e3 : ((L - to_size_t idx : Nat) : Int) = L - idx := by omega
  rw [to_int_of_le _ (by rw [e3]; exact hfit), e3]
  apply to_size_t_of_nonneg
  · omega
  · omega

/-- The result of `clear()` on a non-empty handle whose range lies in the bank. -/
theorem clear_ok_of_in_bank (p : AudioBufferPool) (h : AudioBufferHandle) (q : Ptr)
    (hq : h._data = some q) (hblock : q.block = p.data_block) (h0 : 0 ≤ q.off)
    (hin : q.off + h._length ≤ p.data_size) (hpos : h._length ≠ 0) :
    clear p h = .ok { p with data := fun a =>
      if q.off ≤ (a : Int) ∧ (a : Int) < q.off + h._length then 0 else p.data a } := by
  simp [clear, hq, hblock, h0, hin, hpos]

theorem countP_set_add {α : Type} (q : α → Bool) (l : List α) (k : Nat) (x y : α)
    (hk : l[k]? = some y) :
    (l.set k x).countP q + (if q y then 1 else 0) = l.countP q + (if q x then 1 else 0) := by
  induction l generalizing k with
  | nil => simp at hk
  | cons a as ih =>
    cases k with
    | zero =>
      simp at hk
      subst hk
      simp [List.countP_cons]
      omega
    | succ k =>
      simp at hk
      have := ih k hk
      simp [List.countP_cons]
      omega

theorem countP_eraseIdx_add {α : Type} (q : α → Bool) (l : List α) (k : Nat) (y : α)
    (hk : l[k]? = some y) :
    (l.eraseIdx k).countP q + (if q y then 1 else 0) = l.countP q := by
  induction l generalizing k with
  | nil => simp at hk
  | cons a as ih =>
    cases k with
    | zero =>
      simp at hk
      subst hk
      simp [List.countP_cons]
    | succ k =>
      simp at hk
      have := ih k hk
      simp [List.countP_cons]
      omega

theorem live_refs_append (hs : List (Nat × AudioBufferHandle)) (x : Nat × AudioBufferHandle)
    (i : Nat) :
    live_refs (hs ++ [x]) i = live_refs hs i + (if x.2._reference_count = some i then 1 else 0) := by
  simp [live_refs, List.countP_append, List.countP_cons]

theorem live_refs_set (hs : List (Nat × AudioBufferHandle)) (k : Nat)
    (x y : Nat × AudioBufferHandle) (hk : hs[k]? = some y) (i : Nat) :
    live_refs (hs.set k x) i + (if y.2._reference_count = some i then 1 else 0) =
      live_refs hs i + (if x.2._reference_count = some i then 1 else 0) := by
  have := countP_set_add (fun z : Nat × AudioBufferHandle => decide (z.2._reference_count = some i))
    hs k x y hk
  simpa [live_refs] using this

theorem live_refs_eraseIdx (hs : List (Nat × AudioBufferHandle)) (k : Nat)
    (y : Nat × AudioBufferHandle) (hk : hs[k]? = some y) (i : Nat) :
    live_refs (hs.eraseIdx k) i + (if y.2._reference_count = some i then 1 else 0) =
      live_refs hs i := by
  have := countP_eraseIdx_add
    (fun z : Nat × AudioBufferHandle => decide (z.2._reference_count = some i)) hs k y hk
  simpa [live_refs] using this

theorem live_refs_eq_zero {hs : List (Nat × AudioBufferHandle)} {i : Nat}
    (h0 : live_refs hs i = 0) : ∀ x ∈ hs, x.2._reference_count ≠ some i := by
  intro x hx hxi
  have : 0 < live_refs hs i := by
    unfold live_refs
    rw [List.countP_pos_iff]
    exact ⟨x, hx, by simp [hxi]⟩
  omega

/-- Adding a handle to cell `i` together with incrementing count `i` keeps the discipline. -/
theorem RefInv.add {rc : List Int} {hs : List (Nat × AudioBufferHandle)} (hI : RefInv rc hs)
    (i : Nat) (c : Int) (x : Nat × AudioBufferHandle) (hx : x.2._reference_count = some i)
    (hc : rc[i]? = some c)
    (ho : ∀ y ∈ hs, y.2._reference_count = some i → y.1 = x.1) :
    RefInv (rc.set i (c + 1)) (hs ++ [x]) := by
  have hlen : i < rc.length := by
    by_contra hcon
    rw [List.getElem?_eq_none (by omega)] at hc
    cases hc
  refine ⟨?_, ?_, ?_⟩
  · intro j d hd
    rw [live_refs_append]
    rcases getElem?_set_cases rc i j (c + 1) d hd with ⟨rfl, rfl⟩ | ⟨hne, hj⟩
    · have := hI.counts j c hc
      simp [hx, this]
    · have := hI.counts j d hj
      have hne2 : x.2._reference_count ≠ some j := by
        rw [hx]; intro e; exact hne (Option.some.inj e).symm
      simp [hne2, this]
  · intro y hy j hyj
    rw [List.length_set]
    rcases List.mem_append.1 hy with hy | hy
    · exact hI.bound y hy j hyj
    · simp at hy
      subst hy
      rw [hx] at hyj
      cases hyj
      exact hlen
  · intro y hy z hz j hyj hzj
    rcases List.mem_append.1 hy with hy1 | hy1 <;> rcases List.mem_append.1 hz with hz1 | hz1
    · exact hI.origin y hy1 z hz1 j hyj hzj
    · simp at hz1
      subst hz1
      have : j = i := by rw [hx] at hzj; exact (Option.some.inj hzj).symm
      subst this
      exact ho y hy1 hyj
    · simp at hy1
      subst hy1
      have : j = i := by rw [hx] at hyj; exact (Option.some.inj hyj).symm
      subst this
      exact (ho z hz1 hzj).symm
    · simp at hy1 hz1
      rw [hy1, hz1]

/-- Nulling a live handle together with decrementing its count keeps the discipline. -/
theorem RefInv.set_null {rc : List Int} {hs : List (Nat × AudioBufferHandle)} (hI : RefInv rc hs)
    (k i : Nat) (c : Int) (y x : Nat × AudioBufferHandle) (hk : hs[k]? = some y)
    (hy : y.2._reference_count = some i) (hx : x.2._reference_count = none)
    (hc : rc[i]? = some c) :
    RefInv (rc.set i (c - 1)) (hs.set k x) := by
  refine ⟨?_, ?_, ?_⟩
  · intro j d hd
    have hl := live_refs_set hs k x y hk j
    simp only [hx] at hl
    rcases getElem?_set_cases rc i j (c - 1) d hd with ⟨rfl, rfl⟩ | ⟨hne, hj⟩
    · have := hI.counts j c hc
      simp [hy] at hl
      omega
    · have := hI.counts j d hj
      have hne2 : y.2._reference_count ≠ some j := by
        rw [hy]; intro e; exact hne (Option.some.inj e).symm
      simp [hne2] at hl
      omega
  · intro z hz j hzj
    rw [List.length_set]
    rcases List.mem_or_eq_of_mem_set hz with hz | hz
    · exact hI.bound z hz j hzj
    · subst hz
      rw [hx] at hzj
      cases hzj
  · intro z hz u hu j hzj huj
    rcases List.mem_or_eq_of_mem_set hz with hz | hz
    · rcases List.mem_or_eq_of_mem_set hu with hu | hu
      · exact hI.origin z hz u hu j hzj huj
      · subst hu
        rw [hx] at huj
        cases huj
    · subst hz
      rw [hx] at hzj
      cases hzj

/-- Destroying a live handle together with decrementing its count keeps the discipline. -/
theorem RefInv.erase_live {rc : List Int} {hs : List (Nat × AudioBufferHandle)} (hI : RefInv rc hs)
    (k i : Nat) (c : Int) (y : Nat × AudioBufferHandle) (hk : hs[k]? = some y)
    (hy : y.2._reference_count = some i) (hc : rc[i]? = some c) :
    RefInv (rc.set i (c - 1)) (hs.eraseIdx k) := by
  refine ⟨?_, ?_, ?_⟩
  · intro j d hd
    have hl := live_refs_eraseIdx hs k y hk j
    rcases getElem?_set_cases rc i j (c - 1) d hd with ⟨rfl, rfl⟩ | ⟨hne, hj⟩
    · have := hI.counts j c hc
      simp [hy] at hl
      omega
    · have := hI.counts j d hj
      have hne2 : y.2._reference_count ≠ some j := by
        rw [hy]; intro e; exact hne (Option.some.inj e).symm
      simp [hne2] at hl
      omega
  · intro z hz j hzj
    rw [List.length_set]
    exact hI.bound z (List.mem_of_mem_eraseIdx hz) j hzj
  · intro z hz u hu j hzj huj
    exact hI.origin z (List.mem_of_mem_eraseIdx hz) u (List.mem_of_mem_eraseIdx hu) j hzj huj

/-- Destroying a null handle keeps the discipline. -/
theorem RefInv.erase_null {rc : List Int} {hs : List (Nat × AudioBufferHandle)} (hI : RefInv rc hs)
    (k : Nat) (y : Nat × AudioBufferHandle) (hk : hs[k]? = some y)
    (hy : y.2._reference_count = none) :
    RefInv rc (hs.eraseIdx k) := by
  refine ⟨?_, ?_, ?_⟩
  · intro j d hd
    have hl := live_refs_eraseIdx hs k y hk j
    have := hI.counts j d hd
    simp [hy] at hl
    omega
  · intro z hz j hzj
    exact hI.bound z (List.mem_of_mem_eraseIdx hz) j hzj
  · intro z hz u hu j hzj huj
    exact hI.origin z (List.mem_of_mem_eraseIdx hz) u (List.mem_of_mem_eraseIdx hu) j hzj huj

/-- Move construction keeps the discipline. -/
theorem RefInv.move {rc : List Int} {hs : List (Nat × AudioBufferHandle)} (hI : RefInv rc hs)
    (k : Nat) (o : Nat) (h : AudioBufferHandle) (hk : hs[k]? = some (o, h)) :
    RefInv rc (hs.set k (o, (move_construct h).2) ++ [(o, (move_construct h).1)]) := by
  have hmem : (o, h) ∈ hs := List.mem_iff_getElem?.2 ⟨k, hk⟩
  have key : ∀ z ∈ hs.set k (o, (move_construct h).2) ++ [(o, (move_construct h).1)],
      ∀ j, z.2._reference_count = some j →
        ∃ z1 ∈ hs, z1.1 = z.1 ∧ z1.2._reference_count = some j := by
    intro z hz j hzj
    rcases List.mem_append.1 hz with hz | hz
    · rcases List.mem_or_eq_of_mem_set hz with hz | hz
      · exact ⟨z, hz, rfl, hzj⟩
      · subst hz
        simp [move_construct] at hzj
    · simp at hz
      subst hz
      exact ⟨(o, h), hmem, rfl, by simpa [move_construct] using hzj⟩
  refine ⟨?_, ?_, ?_⟩
  · intro j d hd
    have hl := live_refs_set hs k (o, (move_construct h).2) (o, h) hk j
    rw [live_refs_append]
    have := hI.counts j d hd
    simp only [move_construct] at hl ⊢
    by_cases hj : h._reference_count = some j
    · simp [hj] at hl ⊢
      omega
    · simp [hj] at hl ⊢
      omega
  · intro z hz j hzj
    obtain ⟨z1, hz1, -, h1⟩ := key z hz j hzj
    exact hI.bound z1 hz1 j h1
  · intro z hz u hu j hzj huj
    obtain ⟨z1, hz1, e1, h1⟩ := key z hz j hzj
    obtain ⟨u1, hu1, e2, h2⟩ := key u hu j huj
    rw [← e1, ← e2]
    exact hI.origin z1 hz1 u1 hu1 j h1 h2

/-- A fresh pool with no handles satisfies the discipline. -/
theorem RefInv.init (bs : Nat) :
    RefInv (World.init bs).pool.reference_counts (World.init bs).handles := by
  refine ⟨?_, ?_, ?_⟩
  · intro i c hc
    have : (World.init bs).pool.reference_counts = [0, 0, 0, 0, 0, 0, 0, 0] := rfl
    rw [this] at hc
    have hz : ∀ d ∈ ([0, 0, 0, 0, 0, 0, 0, 0] : List Int), d = 0 := by decide
    have := hz c (List.mem_iff_getElem?.2 ⟨i, hc⟩)
    simp [this, World.init, live_refs]
  · intro x hx
    simp [World.init] at hx
  · intro x hx
    simp [World.init] at hx

/-- Under the discipline a count below 1 is 0 and no handle points to its cell. -/
theorem RefInv.free_slot {rc : List Int} {hs : List (Nat × AudioBufferHandle)} (hI : RefInv rc hs)
    {i : Nat} {c : Int} (hc : rc[i]? = some c) (h1 : c < 1) :
    c = 0 ∧ ∀ x ∈ hs, x.2._reference_count ≠ some i := by
  have := hI.counts i c hc
  have h0 : live_refs hs i = 0 := by omega
  exact ⟨by omega, live_refs_eq_zero h0⟩

/-- Every operation keeps the discipline. -/
theorem World.step_inv {w w1 : World} {op : Op}
    (hI : RefInv w.pool.reference_counts w.handles) (hs : w.step op = some w1) :
    RefInv w1.pool.reference_counts w1.handles := by
  cases op with
  | allocate =>
    simp only [World.step] at hs
    split at hs
    · rename_i p h ha
      cases hs
      obtain ⟨i, c, -, hc, hc1, rfl, rfl⟩ := allocate_ok_inv ha
      obtain ⟨h0, hfree⟩ := hI.free_slot hc hc1
      subst h0
      exact hI.add i 0 _ rfl hc (fun y hy hyi => absurd hyi (hfree y hy))
    · cases hs
  | copy k =>
    simp only [World.step] at hs
    split at hs
    · cases hs
    · rename_i o h hk
      split at hs
      · rename_i p h1 hcopy
        cases hs
        unfold copy_construct at hcopy
        split at hcopy
        · cases hcopy
        · rename_i p1 hincr
          cases hcopy
          obtain ⟨i, c, hcell, hc, -, rfl⟩ := incr_ok_inv hincr
          have hmem : (o, h) ∈ w.handles := List.mem_iff_getElem?.2 ⟨k, hk⟩
          exact hI.add i c _ hcell hc
            (fun y hy hyi => hI.origin y hy (o, h) hmem i hyi hcell)
      · cases hs
  | move k =>
    simp only [World.step] at hs
    split at hs
    · cases hs
    · rename_i o h hk
      cases hs
      exact hI.move k o h hk
  | slice k idx length =>
    simp only [World.step] at hs
    split at hs
    · cases hs
    · rename_i o h hk
      split at hs
      · split at hs
        · rename_i p h1 hslice
          cases hs
          unfold AudioBufferHandle.slice at hslice
          simp only at hslice
          split at hslice
          · cases hslice
          · rename_i i hcell
            unfold AudioBufferHandle.construct at hslice
            split at hslice
            · cases hslice
            · rename_i p1 hincr
              cases hslice
              obtain ⟨i1, c, hi1, hc, -, rfl⟩ := incr_ok_inv hincr
              cases hi1
              have hmem : (o, h) ∈ w.handles := List.mem_iff_getElem?.2 ⟨k, hk⟩
              exact hI.add i c _ rfl hc
                (fun y hy hyi => hI.origin y hy (o, h) hmem i hyi hcell)
        · cases hs
      · cases hs
  | release k =>
    simp only [World.step] at hs
    split at hs
    · cases hs
    · rename_i o h hk
      split at hs
      · rename_i p h1 hrel
        cases hs
        unfold AudioBufferHandle.release at hrel
        split at hrel
        · cases hrel
        · rename_i p1 hdecr
          cases hrel
          obtain ⟨i, c, hcell, hc, -, rfl⟩ := decr_ok_inv hdecr
          exact hI.set_null k i c (o, h) _ hk hcell rfl hc
      · cases hs
  | destroy k =>
    simp only [World.step] at hs
    split at hs
    · cases hs
    · rename_i o h hk
      split at hs
      · rename_i p hdes
        cases hs
        unfold AudioBufferHandle.destroy at hdes
        split at hdes
        · rename_i hnull
          cases hdes
          exact hI.erase_null k (o, h) hk hnull
        · rename_i i hcell
          obtain ⟨i1, c, hi1, hc, -, rfl⟩ := decr_ok_inv hdes
          cases hi1
          exact hI.erase_live k i c (o, h) hk hcell hc
      · cases hs

/-- Every sequence of operations keeps the discipline. -/
theorem World.run_inv {w w1 : World} {ops : List Op}
    (hI : RefInv w.pool.reference_counts w.handles) (hr : w.run ops = some w1) :
    RefInv w1.pool.reference_counts w1.handles := by
  induction ops generalizing w with
  | nil =>
    simp [World.run] at hr
    subst hr
    exact hI
  | cons op ops ih =>
    simp only [World.run] at hr
    split at hr
    · cases hr
    · rename_i w2 hstep
      exact ih (World.step_inv hI hstep) hr

/-- The bookkeeping of slots, for every block length: in every state reached from a freshly
constructed pool by any sequence of `allocate`, copy construction, move construction, `slice`,
`release()` and handle destruction (each step one that the source executes without a fault),
when `allocate()` returns a handle to slot `i`, no existing handle points to count cell `i` at
that moment; two handles that point to the same count cell descend from the same `allocate()`
call; and every count is the number of existing handles that point to its cell. -/
theorem allocate_never_returns_slot_in_use (buffer_size : Nat) (ops : List Op) (w : World)
    (hr : (World.init buffer_size).run ops = some w) :
    (∀ p h, allocate w.pool = .ok (p, h) →
      ∃ i, h._reference_count = some i ∧ ∀ x ∈ w.handles, x.2._reference_count ≠ some i) ∧
    (∀ x ∈ w.handles, ∀ y ∈ w.handles, ∀ i, x.2._reference_count = some i →
      y.2._reference_count = some i → x.1 = y.1) ∧
    (∀ i c, w.pool.reference_counts[i]? = some c → c = (live_refs w.handles i : Int)) := by
  have hI := World.run_inv (RefInv.init buffer_size) hr
  refine ⟨?_, hI.origin, hI.counts⟩
  intro p h ha
  obtain ⟨i, c, -, hc, hc1, -, rfl⟩ := allocate_ok_inv ha
  exact ⟨i, rfl, (hI.free_slot hc hc1).2⟩

/-- Example for the theorem above: after `sample_ops` on a pool of block length 64 two handles
exist (the released first handle and its copy, which keeps slot 0 in use), the next
`allocate()` returns slot 1, and the three conclusions of the theorem hold in that state. -/
theorem allocate_never_returns_slot_in_use_example :
    ∃ w, (World.init 64).run sample_ops = some w ∧
      w.handles.map (fun x => x.2._reference_count) = [none, some 0] ∧
      w.pool.reference_counts = [1, 0, 0, 0, 0, 0, 0, 0] ∧
      (∃ p h, allocate w.pool = .ok (p, h) ∧ h._reference_count = some 1) ∧
      ((∀ p h, allocate w.pool = .ok (p, h) →
        ∃ i, h._reference_count = some i ∧ ∀ x ∈ w.handles, x.2._reference_count ≠ some i) ∧
      (∀ x ∈ w.handles, ∀ y ∈ w.handles, ∀ i, x.2._reference_count = some i →
        y.2._reference_count = some i → x.1 = y.1) ∧
      (∀ i c, w.pool.reference_counts[i]? = some c → c = (live_refs w.handles i : Int))) :=
  ⟨_, rfl, rfl, rfl, ⟨_, _, rfl, rfl⟩, allocate_never_returns_slot_in_use 64 sample_ops _ rfl⟩

/-! ## Facts about the ranges of handles -/

/-- A fresh pool and no handles satisfy the range discipline. -/
theorem RangeInv.range_init (bs : Nat) : RangeInv bs (World.init bs) := by
  refine ⟨rfl, rfl, rfl, ?_⟩
  intro x hx
  simp [World.init] at hx

/-- Adding a handle that satisfies the range discipline, the pool changing in its counts only. -/
theorem RangeInv.range_add {bs : Nat} {w : World} (hI : RangeInv bs w) (rc : List Int) (mv n : Nat)
    (hrc : rc.length = w.pool.reference_counts.length) (y : Nat × AudioBufferHandle)
    (hy : ∀ i, y.2._reference_count = some i →
      ∃ q, y.2._data = some q ∧ q.block = 1 ∧ ((i * bs : Nat) : Int) ≤ q.off ∧
        q.off + y.2._length ≤ (((i + 1) * bs : Nat) : Int)) :
    RangeInv bs { pool := { w.pool with reference_counts := rc, _max_val := mv },
                  handles := w.handles ++ [y], allocations := n } := by
  refine ⟨hI.buffer_size, by simpa [hrc] using hI.slots, hI.block, ?_⟩
  intro x hx i hi
  simp only [List.mem_append, List.mem_singleton] at hx
  rcases hx with hx | hx
  · exact hI.ranges x hx i hi
  · subst hx
    exact hy i hi

/-- Every operation that respects the precondition of `slice` keeps the range discipline, when
`8 * bs` fits an `int`. -/
theorem World.step_range {bs : Nat} {w w1 : World} {op : Op}
    (hfit : ((number_of_buffers * bs : Nat) : Int) ≤ INT_MAX)
    (hI : RangeInv bs w) (hc : w.op_in_contract op = true) (hs : w.step op = some w1) :
    RangeInv bs w1 := by
  cases op with
  | allocate =>
    simp only [World.step] at hs
    split at hs
    · rename_i p h ha
      cases hs
      obtain ⟨i, c, -, hci, -, rfl, rfl⟩ := allocate_ok_inv ha
      have hi : i < number_of_buffers := by
        rw [← hI.slots]
        by_contra hcon
        rw [List.getElem?_eq_none (by omega)] at hci
        cases hci
      have hmul : (i + 1) * bs ≤ number_of_buffers * bs := Nat.mul_le_mul_right _ (by omega)
      have hmul2 : i * bs + bs = (i + 1) * bs := by rw [Nat.succ_mul]
      have hfit2 : ((i * bs : Nat) : Int) ≤ INT_MAX := by omega
      have hlt : i * bs < SIZE_RANGE := by
        unfold INT_MAX at hfit2
        unfold SIZE_RANGE
        have : (2 : Nat) ^ 64 = 18446744073709551616 := by norm_num
        omega
      refine hI.range_add _ _ _ (by simp) _ ?_
      intro j hj
      cases hj
      refine ⟨_, rfl, hI.block, ?_, ?_⟩
      · simp only
        rw [hI.buffer_size, Nat.mod_eq_of_lt hlt, to_int_of_le _ hfit2]
      · simp only
        rw [hI.buffer_size, Nat.mod_eq_of_lt hlt, to_int_of_le _ hfit2]
        omega
    · cases hs
  | copy k =>
    simp only [World.step] at hs
    split at hs
    · cases hs
    · rename_i o h hk
      split at hs
      · rename_i p h1 hcopy
        cases hs
        unfold copy_construct at hcopy
        split at hcopy
        · cases hcopy
        · rename_i p1 hincr
          cases hcopy
          obtain ⟨i, c, hcell, hci, -, rfl⟩ := incr_ok_inv hincr
          have hmem : (o, h) ∈ w.handles := List.mem_iff_getElem?.2 ⟨k, hk⟩
          have := hI.range_add (w.pool.reference_counts.set i (c + 1)) w.pool._max_val w.allocations
            (by simp) (o, { _data := h._data, _length := h._length,
                            _reference_count := h._reference_count })
            (fun j hj => hI.ranges (o, h) hmem j hj)
          exact this
      · cases hs
  | move k =>
    simp only [World.step] at hs
    split at hs
    · cases hs
    · rename_i o h hk
      cases hs
      have hmem : (o, h) ∈ w.handles := List.mem_iff_getElem?.2 ⟨k, hk⟩
      refine ⟨hI.buffer_size, hI.slots, hI.block, ?_⟩
      intro x hx i hi
      simp only [List.mem_append, List.mem_singleton] at hx
      rcases hx with hx | hx
      · rcases List.mem_or_eq_of_mem_set hx with hx1 | hx1
        · exact hI.ranges x hx1 i hi
        · subst hx1
          simp [AudioBufferHandle.move_construct] at hi
      · subst hx
        exact hI.ranges (o, h) hmem i hi
  | slice k idx length =>
    simp only [World.step] at hs
    simp only [World.op_in_contract] at hc
    split at hs
    · cases hs
    · rename_i o h hk
      rw [hk] at hc
      simp only [decide_eq_true_eq] at hc
      obtain ⟨hc0, hc1, hc2⟩ := hc
      have hmem : (o, h) ∈ w.handles := List.mem_iff_getElem?.2 ⟨k, hk⟩
      split at hs
      · split at hs
        · rename_i p h1 hslice
          cases hs
          unfold AudioBufferHandle.slice at hslice
          simp only at hslice
          split at hslice
          · cases hslice
          · rename_i i hcell
            unfold AudioBufferHandle.construct at hslice
            split at hslice
            · cases hslice
            · rename_i p1 hincr
              cases hslice
              obtain ⟨i1, c, hi1, hci, -, rfl⟩ := incr_ok_inv hincr
              cases hi1
              obtain ⟨q, hq, hqb, hlo, hhi⟩ := hI.ranges (o, h) hmem i hcell
              simp only at hq hlo hhi
              have hi : i < number_of_buffers := by
                rw [← hI.slots]
                by_contra hcon
                rw [List.getElem?_eq_none (by omega)] at hci
                cases hci
              have hmul : (i + 1) * bs ≤ number_of_buffers * bs :=
                Nat.mul_le_mul_right _ (by omega)
              have hmul2 : i * bs + bs = (i + 1) * bs := by rw [Nat.succ_mul]
              have hL : (h._length : Int) ≤ INT_MAX := by omega
              have hL2 : h._length < SIZE_RANGE := by
                unfold INT_MAX at hL
                unfold SIZE_RANGE
                have : (2 : Nat) ^ 64 = 18446744073709551616 := by norm_num
                omega
              have hlen : ((to_size_t
                  (if length < 0 then
                    to_int ((h._length + (SIZE_RANGE - to_size_t idx)) % SIZE_RANGE)
                  else length) : Nat) : Int) ≤ h._length - idx := by
                by_cases hneg : length < 0
                · rw [if_pos hneg, slice_default_length h._length idx hL2 hc0 hc1 (by omega)]
                · rw [if_neg hneg]
                  rw [to_size_t_of_nonneg length (by omega)
                    (by have : (h._length : Int) < SIZE_RANGE := by exact_mod_cast hL2
                        omega)]
                  omega
              refine hI.range_add _ _ _ (by simp) (o, _) ?_
              intro j hj
              cases hj
              refine ⟨{ q with off := q.off + idx }, by simp [ptr_add, hq], hqb, ?_, ?_⟩
              · simp only
                omega
              · simp only
                omega
        · cases hs
      · cases hs
  | release k =>
    simp only [World.step] at hs
    split at hs
    · cases hs
    · rename_i o h hk
      split at hs
      · rename_i p h1 hrel
        cases hs
        unfold AudioBufferHandle.release at hrel
        split at hrel
        · cases hrel
        · rename_i p1 hdecr
          cases hrel
          obtain ⟨i, c, hcell, hci, -, rfl⟩ := decr_ok_inv hdecr
          refine ⟨hI.buffer_size, by simpa using hI.slots, hI.block, ?_⟩
          intro x hx j hj
          rcases List.mem_or_eq_of_mem_set hx with hx1 | hx1
          · exact hI.ranges x hx1 j hj
          · subst hx1
            simp at hj
      · cases hs
  | destroy k =>
    simp only [World.step] at hs
    split at hs
    · cases hs
    · rename_i o h hk
      split at hs
      · rename_i p hdes
        cases hs
        have hpool : p.buffer_size = w.pool.buffer_size ∧
            p.reference_counts.length = w.pool.reference_counts.length ∧
            p.data_block = w.pool.data_block := by
          unfold AudioBufferHandle.destroy at hdes
          split at hdes
          · cases hdes
            exact ⟨rfl, rfl, rfl⟩
          · obtain ⟨i1, c, -, -, -, rfl⟩ := decr_ok_inv hdes
            exact ⟨rfl, by simp, rfl⟩
        refine ⟨hpool.1.trans hI.buffer_size, hpool.2.1.trans hI.slots,
          hpool.2.2.trans hI.block, ?_⟩
        intro x hx j hj
        exact hI.ranges x (List.mem_of_mem_eraseIdx hx) j hj
      · cases hs

/-- Every sequence of operations that respects the precondition of `slice` keeps the range
discipline, when `8 * bs` fits an `int`. -/
theorem World.run_range {bs : Nat} {w w1 : World} {ops : List Op}
    (hfit : ((number_of_buffers * bs : Nat) : Int) ≤ INT_MAX)
    (hI : RangeInv bs w) (hc : w.run_in_contract ops = true) (hr : w.run ops = some w1) :
    RangeInv bs w1 := by
  induction ops generalizing w with
  | nil =>
    simp [World.run] at hr
    subst hr
    exact hI
  | cons op ops ih =>
    simp only [World.run] at hr
    simp only [World.run_in_contract, Bool.and_eq_true] at hc
    split at hr
    · cases hr
    · rename_i w2 hstep
      rw [hstep] at hc
      exact ih (World.step_range hfit hI hc.1 hstep) hc.2 hr

/-- Range disjointness behind C1: in a pool whose 8 blocks fit an `int` offset
(`8 * buffer_size <= INT_MAX`), after any sequence of `allocate`, copy construction, move
construction, `slice` within its documented precondition, `release()` and destruction, two
existing non-null handles that descend from different `allocate()` calls point to different
count cells and view disjoint sample ranges of the bank. -/
theorem handles_of_distinct_allocations_disjoint (buffer_size : Nat) (ops : List Op) (w : World)
    (hfit : ((number_of_buffers * buffer_size : Nat) : Int) ≤ INT_MAX)
    (hc : (World.init buffer_size).run_in_contract ops = true)
    (hr : (World.init buffer_size).run ops = some w) :
    ∀ x ∈ w.handles, ∀ y ∈ w.handles, ∀ i j, x.2._reference_count = some i →
      y.2._reference_count = some j → x.1 ≠ y.1 →
      i ≠ j ∧ ∃ a b c d, x.2.range = some (a, b) ∧ y.2.range = some (c, d) ∧ (b ≤ c ∨ d ≤ a) := by
  have hR := World.run_inv (RefInv.init buffer_size) hr
  have hI := World.run_range hfit (RangeInv.range_init buffer_size) hc hr
  intro x hx y hy i j hi hj hne
  have hij : i ≠ j := by
    intro h
    subst h
    exact hne (hR.origin x hx y hy i hi hj)
  obtain ⟨q, hq, -, hlo, hhi⟩ := hI.ranges x hx i hi
  obtain ⟨r, hr1, -, hlo2, hhi2⟩ := hI.ranges y hy j hj
  refine ⟨hij, q.off, q.off + x.2._length, r.off, r.off + y.2._length,
    by simp [AudioBufferHandle.range, hq], by simp [AudioBufferHandle.range, hr1], ?_⟩
  rcases Nat.lt_or_gt_of_ne hij with hlt | hgt
  · left
    have hmul : (i + 1) * buffer_size ≤ j * buffer_size := Nat.mul_le_mul_right _ hlt
    omega
  · right
    have hmul : (j + 1) * buffer_size ≤ i * buffer_size := Nat.mul_le_mul_right _ hgt
    omega

/-- Example for the theorem above: after `sliced_ops` on a pool of block length 64 the slice
`[16, 48)` of slot 0, its sub-slice `[24, 48)` and the two handles of slot 1 exist, and each of
the former is disjoint from each of the latter. -/
theorem handles_of_distinct_allocations_disjoint_example :
    ∃ w, (World.init 64).run sliced_ops = some w ∧
      w.handles.map (fun x => (x.1, x.2.range)) =
        [(0, none), (1, some (64, 128)), (0, some (16, 48)), (0, some (24, 48)),
         (1, some (64, 128))] ∧
      ∀ x ∈ w.handles, ∀ y ∈ w.handles, ∀ i j, x.2._reference_count = some i →
        y.2._reference_count = some j → x.1 ≠ y.1 →
        i ≠ j ∧ ∃ a b c d, x.2.range = some (a, b) ∧ y.2.range = some (c, d) ∧
          (b ≤ c ∨ d ≤ a) :=
  ⟨_, rfl, rfl,
    handles_of_distinct_allocations_disjoint 64 sliced_ops _ (by decide) (by decide) rfl⟩

/-! ## The claims -/

/-- Claim C1, evaluated on the source at block length 613566757. After seven `allocate()` calls
whose handles are kept, the handle `h0` of the first call exists and points to count cell 0,
and slot 7 is the only free one. The eighth `allocate()` returns a handle `h7` to slot 7, a
count cell no existing handle points to, but `int index = i * buffer_size` narrows
`7 * 613566757 = 4294967299` to 3: `h7` views samples `[3, 613566760)` of the bank while `h0`
views `[0, 613566757)`. Element 2 of `h7` and element 5 of `h0` are the same sample, and
`clear()` on `h7` zeroes that sample of `h0`. -/
theorem allocate_returns_samples_of_live_handle :
    ∃ w h0 p h7,
      (World.init 613566757).run (List.replicate 7 Op.allocate) = some w ∧
      w.handles[0]? = some (0, h0) ∧ h0._reference_count = some 0 ∧
      w.pool.reference_counts = [1, 1, 1, 1, 1, 1, 1, 0] ∧
      (∀ x ∈ w.handles, x.2._reference_count ≠ some 7) ∧
      allocate w.pool = .ok (p, h7) ∧ h7._reference_count = some 7 ∧
      w.step .allocate = some { pool := p, handles := w.handles ++ [(7, h7)], allocations := 8 } ∧
      p.reference_counts = [1, 1, 1, 1, 1, 1, 1, 1] ∧
      h0.range = some (0, 613566757) ∧ h7.range = some (3, 613566760) ∧
      h0._data = some { block := 1, off := 0 } ∧ h7._data = some { block := 1, off := 3 } ∧
      index_addr h0 5 = index_addr h7 2 ∧
      AudioBufferHandle.get { p with data := ramp } h0 5 = .ok 6 ∧
      ∃ p2, clear { p with data := ramp } h7 = .ok p2 ∧ AudioBufferHandle.get p2 h0 5 = .ok 0 :=
  ⟨{ pool := { AudioBufferPool.construct 613566757 with
               reference_counts := [1, 1, 1, 1, 1, 1, 1, 0] },
     handles := [(0, { _data := some { block := 1, off := 0 }, _length := 613566757,
                       _reference_count := some 0 }),
                 (1, { _data := some { block := 1, off := 613566757 }, _length := 613566757,
                       _reference_count := some 1 }),
                 (2, { _data := some { block := 1, off := 1227133514 }, _length := 613566757,
                       _reference_count := some 2 }),
                 (3, { _data := some { block := 1, off := 1840700271 }, _length := 613566757,
                       _reference_count := some 3 }),
                 (4, { _data := some { block := 1, off := -1840700268 }, _length := 613566757,
                       _reference_count := some 4 }),
                 (5, { _data := some { block := 1, off := -1227133511 }, _length := 613566757,
                       _reference_count := some 5 }),
                 (6, { _data := some { block := 1, off := -613566754 }, _length := 613566757,
                       _reference_count := some 6 })],
     allocations := 7 },
   { _data := some { block := 1, off := 0 }, _length := 613566757, _reference_count := some 0 },
   { AudioBufferPool.construct 613566757 with
     reference_counts := [1, 1, 1, 1, 1, 1, 1, 1] },
   { _data := some { block := 1, off := 3 }, _length := 613566757, _reference_count := some 7 },
   rfl, rfl, rfl, rfl, by decide, rfl, rfl, rfl, rfl, rfl, rfl, rfl, rfl, rfl, rfl, _, rfl, rfl⟩

/-- Claim C2. A pool has 8 slots (after construction, after `set_buffer_size`, and `allocate()`
keeps their number); `allocate()` reaches `std::terminate` if and only if every slot has a count
of at least 1, and otherwise it returns a handle; on a fresh pool of block length 64 eight
consecutive calls whose handles are kept all succeed, leaving every count at 1, and the ninth
call is fatal. -/
theorem allocate_fatal_iff_no_free_slot :
    (∀ bs : Nat, (AudioBufferPool.construct bs).reference_counts.length = number_of_buffers ∧
      number_of_buffers = 8) ∧
    (∀ (p : AudioBufferPool) (n : Nat),
      (set_buffer_size p n).reference_counts.length = number_of_buffers) ∧
    (∀ (p p1 : AudioBufferPool) (h : AudioBufferHandle), allocate p = .ok (p1, h) →
      p1.reference_counts.length = p.reference_counts.length) ∧
    (∀ p : AudioBufferPool, allocate p = .error .terminate ↔ ∀ c ∈ p.reference_counts, 1 ≤ c) ∧
    (∀ p : AudioBufferPool, allocate p = .error .terminate ∨ ∃ p1 h, allocate p = .ok (p1, h)) ∧
    (∃ p hs, allocate_n (AudioBufferPool.construct 64) 8 = .ok (p, hs) ∧ hs.length = 8 ∧
      p.reference_counts = [1, 1, 1, 1, 1, 1, 1, 1] ∧ allocate p = .error .terminate) := by
  refine ⟨fun bs => ⟨by rw [construct_reference_counts]; rfl, rfl⟩, ?_,
    fun p p1 h ha => allocate_length ha, allocate_terminate_iff, allocate_total, ?_⟩
  · intro p n
    simp only [set_buffer_size, reserve, vector_resize, List.length_append, List.length_take,
      List.length_replicate]
    omega
  · exact ⟨_, _, rfl, rfl, rfl, rfl⟩

/-- Claim C3, evaluated on the source: `set_buffer_size` does not reset the counts. `reserve`
calls `reference_counts.resize(8, 0)` on a vector that already has 8 elements, which changes
none of them. So a pool of 8 slots keeps every count across `set_buffer_size`; a count of 1 held
by a live handle is still 1 afterwards; and a count of 1 left behind by a move assignment, with
no handle pointing to the slot any more, is still 1 afterwards. -/
theorem set_buffer_size_keeps_nonzero_count :
    (∀ (p : AudioBufferPool) (n : Nat), p.reference_counts.length = number_of_buffers →
      (set_buffer_size p n).reference_counts = p.reference_counts) ∧
    (∃ p h, allocate (AudioBufferPool.construct 64) = .ok (p, h) ∧
      p.reference_counts = [1, 0, 0, 0, 0, 0, 0, 0] ∧
      (set_buffer_size p 128).reference_counts = [1, 0, 0, 0, 0, 0, 0, 0] ∧
      (set_buffer_size p 128).buffer_size = 128) ∧
    (∃ p1 a p2 b p3 p4, allocate (AudioBufferPool.construct 64) = .ok (p1, a) ∧
      allocate p1 = .ok (p2, b) ∧
      destroy p2 (move_assign b a).1 = .ok p3 ∧
      destroy p3 (move_assign b a).2 = .ok p4 ∧
      p4.reference_counts = [0, 1, 0, 0, 0, 0, 0, 0] ∧
      (set_buffer_size p4 128).reference_counts = [0, 1, 0, 0, 0, 0, 0, 0]) :=
  ⟨set_buffer_size_reference_counts, ⟨_, _, rfl, rfl, rfl, rfl⟩,
    ⟨_, _, _, _, _, _, rfl, rfl, rfl, rfl, rfl, rfl⟩⟩

/-- Claim C4, evaluated on the source: the offset of the slot is computed as
`int index = i * buffer_size`, which narrows the product to 32 bits. With block length
306783379 and slots 0 to 6 in use, `allocate()` picks slot 7 (first fit) but the handle it
returns starts 2147483643 samples before the bank instead of at sample `7 * 306783379`. -/
theorem allocate_offset_wraps_for_large_blocks :
    ∃ p hs p1 h, allocate_n (AudioBufferPool.construct 306783379) 7 = .ok (p, hs) ∧
      p.reference_counts = [1, 1, 1, 1, 1, 1, 1, 0] ∧
      allocate p = .ok (p1, h) ∧
      h._reference_count = some 7 ∧
      h._data = some { block := p.data_block, off := -2147483643 } ∧
      p.data_size = 8 * 306783379 ∧
      ((7 * p.buffer_size : Nat) : Int) = 2147483653 :=
  ⟨_, _, _, _, rfl, rfl, rfl, rfl, by decide, rfl, rfl⟩

/-- Counterexample to C5 as stated: a live handle whose slot has count `INT_MAX` cannot be
copied (the increment is signed overflow, there is no count `c + 1`), and a live handle whose
slot has count `INT_MIN` cannot be destroyed with a decrement to `c - 1`. -/
theorem copy_at_int_max_overflows :
    pool_at_int_limits.reference_counts[0]? = some INT_MAX ∧
    handle_slot0._reference_count = some 0 ∧
    copy_construct pool_at_int_limits handle_slot0 = .error .signed_overflow ∧
    pool_at_int_limits.reference_counts[1]? = some INT_MIN ∧
    handle_slot1._reference_count = some 1 ∧
    destroy pool_at_int_limits handle_slot1 = .error .signed_overflow :=
  ⟨rfl, rfl, rfl, rfl, rfl, rfl⟩

/-- Claim C5, amended. For every live handle `h` whose slot `i` has count `c`: if `c < INT_MAX`,
copy construction from `h` returns, makes the count of slot `i` exactly `c + 1`, changes no
other count, and the copy has the data pointer, length and count cell of `h`; if `INT_MIN < c`,
destroying `h` returns, makes the count exactly `c - 1` and changes no other count. -/
theorem copy_increments_and_destroy_decrements (p : AudioBufferPool) (h : AudioBufferHandle)
    (i : Nat) (c : Int) (hlive : h._reference_count = some i)
    (hc : p.reference_counts[i]? = some c) :
    (c < INT_MAX → ∃ p1 h1, copy_construct p h = .ok (p1, h1) ∧
      p1 = { p with reference_counts := p.reference_counts.set i (c + 1) } ∧
      p1.reference_counts[i]? = some (c + 1) ∧
      (∀ j, j ≠ i → p1.reference_counts[j]? = p.reference_counts[j]?) ∧
      h1._data = h._data ∧ h1._length = h._length ∧ h1._reference_count = some i) ∧
    (INT_MIN < c → ∃ p1, destroy p h = .ok p1 ∧
      p1 = { p with reference_counts := p.reference_counts.set i (c - 1) } ∧
      p1.reference_counts[i]? = some (c - 1) ∧
      (∀ j, j ≠ i → p1.reference_counts[j]? = p.reference_counts[j]?)) := by
  constructor
  · intro hlt
    refine ⟨{ p with reference_counts := p.reference_counts.set i (c + 1) },
      { _data := h._data, _length := h._length, _reference_count := h._reference_count },
      ?_, rfl, getElem?_set_self_of_some _ _ _ _ hc,
      fun j hj => getElem?_set_other _ _ _ _ hj, rfl, rfl, hlive⟩
    simp [copy_construct, hlive, incr_some_ok p i c hc hlt]
  · intro hlt
    refine ⟨_, ?_, rfl, getElem?_set_self_of_some _ _ _ _ hc,
      fun j hj => getElem?_set_other _ _ _ _ hj⟩
    simp [destroy, hlive, decr_some_ok p i c hc hlt]

/-- Witness for C5: the handle returned by the first `allocate()` of a pool of block length 64
(slot 0, count 1). -/
theorem copy_increments_and_destroy_decrements_witness :
    allocate (AudioBufferPool.construct 64) = .ok (pool_one_live, handle_slot0) ∧
    (∃ p1 h1, copy_construct pool_one_live handle_slot0 = .ok (p1, h1) ∧
      p1 = { pool_one_live with reference_counts := pool_one_live.reference_counts.set 0 (1 + 1) } ∧
      p1.reference_counts[0]? = some (1 + 1) ∧
      (∀ j, j ≠ 0 → p1.reference_counts[j]? = pool_one_live.reference_counts[j]?) ∧
      h1._data = handle_slot0._data ∧ h1._length = handle_slot0._length ∧
      h1._reference_count = some 0) ∧
    (∃ p1, destroy pool_one_live handle_slot0 = .ok p1 ∧
      p1 = { pool_one_live with reference_counts := pool_one_live.reference_counts.set 0 (1 - 1) } ∧
      p1.reference_counts[0]? = some (1 - 1) ∧
      (∀ j, j ≠ 0 → p1.reference_counts[j]? = pool_one_live.reference_counts[j]?)) :=
  ⟨rfl, (copy_increments_and_destroy_decrements pool_one_live handle_slot0 0 1 rfl rfl).1 (by decide),
    (copy_increments_and_destroy_decrements pool_one_live handle_slot0 0 1 rfl rfl).2 (by decide)⟩

/-- Counterexample to C6 as stated: a second `release()` on a released handle is not a no-op,
it dereferences the null `_reference_count` (only the destructor tests for null); and
`release()` on a handle whose slot has count `INT_MIN` is signed overflow. -/
theorem second_release_dereferences_null :
    (∃ p h p1 h1, allocate (AudioBufferPool.construct 64) = .ok (p, h) ∧
      h._reference_count = some 0 ∧ p.reference_counts[0]? = some 1 ∧
      release p h = .ok (p1, h1) ∧ p1.reference_counts[0]? = some 0 ∧
      release p1 h1 = .error .null_deref) ∧
    (handle_slot1._reference_count = some 1 ∧
      pool_at_int_limits.reference_counts[1]? = some INT_MIN ∧
      release pool_at_int_limits handle_slot1 = .error .signed_overflow) :=
  ⟨⟨_, _, _, _, rfl, rfl, rfl, rfl, rfl, rfl⟩, rfl, rfl, rfl⟩

/-- Claim C6, amended. For every live handle `h` whose slot `i` has count `c > INT_MIN`:
`h.release()` returns, makes the count of slot `i` exactly `c - 1`, changes no other count and
leaves `h` with null `_reference_count` and null `_data`; destroying the released handle
changes nothing in the pool; a further `release()` on it is a null dereference. -/
theorem release_decrements_once (p : AudioBufferPool) (h : AudioBufferHandle)
    (i : Nat) (c : Int) (hlive : h._reference_count = some i)
    (hc : p.reference_counts[i]? = some c) (hmin : INT_MIN < c) :
    ∃ p1 h1, release p h = .ok (p1, h1) ∧
      p1 = { p with reference_counts := p.reference_counts.set i (c - 1) } ∧
      p1.reference_counts[i]? = some (c - 1) ∧
      (∀ j, j ≠ i → p1.reference_counts[j]? = p.reference_counts[j]?) ∧
      h1._reference_count = none ∧ h1._data = none ∧
      destroy p1 h1 = .ok p1 ∧
      release p1 h1 = .error .null_deref := by
  refine ⟨{ p with reference_counts := p.reference_counts.set i (c - 1) },
    { h with _reference_count := none, _data := none }, ?_, rfl,
    getElem?_set_self_of_some _ _ _ _ hc, fun j hj => getElem?_set_other _ _ _ _ hj,
    rfl, rfl, rfl, rfl⟩
  simp [release, hlive, decr_some_ok p i c hc hmin]

/-- Witness for C6: the handle returned by the first `allocate()` of a pool of block length 64. -/
theorem release_decrements_once_witness :
    allocate (AudioBufferPool.construct 64) = .ok (pool_one_live, handle_slot0) ∧
    ∃ p1 h1, release pool_one_live handle_slot0 = .ok (p1, h1) ∧
      p1 = { pool_one_live with reference_counts := pool_one_live.reference_counts.set 0 (1 - 1) } ∧
      p1.reference_counts[0]? = some (1 - 1) ∧
      (∀ j, j ≠ 0 → p1.reference_counts[j]? = pool_one_live.reference_counts[j]?) ∧
      h1._reference_count = none ∧ h1._data = none ∧
      destroy p1 h1 = .ok p1 ∧
      release p1 h1 = .error .null_deref :=
  ⟨rfl, release_decrements_once pool_one_live handle_slot0 0 1 rfl rfl (by decide)⟩

/-- Claim C7. Move construction from a handle `h` gives the new handle the data pointer, length
and count cell of `h`, leaves `h` with null `_data` and null `_reference_count`, touches no
count (a move step leaves the pool as it was), and destroying the moved-from handle afterwards
leaves the pool unchanged. -/
theorem move_construct_transfers_ownership (p : AudioBufferPool) (h : AudioBufferHandle) :
    (move_construct h).1 = h ∧
    (move_construct h).1._data = h._data ∧
    (move_construct h).1._length = h._length ∧
    (move_construct h).1._reference_count = h._reference_count ∧
    (move_construct h).2._data = none ∧
    (move_construct h).2._reference_count = none ∧
    destroy p (move_construct h).2 = .ok p ∧
    (∀ (w w1 : World) (k : Nat), w.step (.move k) = some w1 → w1.pool = w.pool) := by
  refine ⟨rfl, rfl, rfl, rfl, rfl, rfl, rfl, ?_⟩
  intro w w1 k hs
  simp only [World.step] at hs
  split at hs
  · cases hs
  · cases hs
    rfl

/-- Counterexample to C8 as stated: slicing a live handle whose slot has count `INT_MAX`
does not raise the count to `c + 1`; the increment is signed overflow. -/
theorem slice_at_int_max_overflows :
    pool_at_int_limits.reference_counts[0]? = some INT_MAX ∧
    handle_slot0._reference_count = some 0 ∧
    AudioBufferHandle.slice pool_at_int_limits handle_slot0 0 32 = .error .signed_overflow :=
  ⟨rfl, rfl, rfl⟩

/-- Claim C8, amended. For every live handle `h` whose slot `i` has a count `c` with
`INT_MIN ≤ c < INT_MAX` and every `idx`, `len`: `h.slice(idx, len)` returns a handle with the
count cell of `h` and raises the count to `c + 1`, changing no other count; releasing or
destroying the slice gives back exactly the pool from before the slice; and when `c ≥ 1` the
slot is not handed out by `allocate()` while the slice and the parent exist, nor after the
parent alone is released, and releasing the slice last brings the count to `c - 1`. -/
theorem slice_shares_reference_count (p : AudioBufferPool) (h : AudioBufferHandle)
    (i : Nat) (c : Int) (idx len : Int) (hlive : h._reference_count = some i)
    (hc : p.reference_counts[i]? = some c) (hmin : INT_MIN ≤ c) (hmax : c < INT_MAX) :
    ∃ p1 s, AudioBufferHandle.slice p h idx len = .ok (p1, s) ∧
      s._reference_count = h._reference_count ∧
      p1.reference_counts[i]? = some (c + 1) ∧
      (∀ j, j ≠ i → p1.reference_counts[j]? = p.reference_counts[j]?) ∧
      (∃ s1, release p1 s = .ok (p, s1) ∧ s1._reference_count = none) ∧
      destroy p1 s = .ok p ∧
      (1 ≤ c →
        (∀ p3 g, allocate p1 = .ok (p3, g) → g._reference_count ≠ some i) ∧
        (∃ h1, release p1 h = .ok (p, h1) ∧ h1._reference_count = none) ∧
        (∀ p3 g, allocate p = .ok (p3, g) → g._reference_count ≠ some i) ∧
        (∃ p4 s1, release p s = .ok (p4, s1) ∧ p4.reference_counts[i]? = some (c - 1))) := by
  have hself : (p.reference_counts.set i (c + 1))[i]? = some (c + 1) :=
    getElem?_set_self_of_some _ _ _ _ hc
  have hback : ({ p with reference_counts :=
      (p.reference_counts.set i (c + 1)).set i (c + 1 - 1) } : AudioBufferPool) = p := by
    rw [add_sub_cancel_right]
    exact pool_set_set_back p i c (c + 1) hc
  have hmin1 : INT_MIN < c + 1 := by omega
  refine ⟨_, _, slice_ok p h i c idx len hlive hc hmax, hlive.symm, hself,
    fun j hj => getElem?_set_other _ _ _ _ hj, ?_, ?_, ?_⟩
  · refine ⟨{ _data := none,
              _length := to_size_t
                (if len < 0 then to_int ((h._length + (SIZE_RANGE - to_size_t idx)) % SIZE_RANGE)
                 else len),
              _reference_count := none }, ?_, rfl⟩
    simp only [release]
    rw [decr_some_ok _ i (c + 1) hself hmin1]
    simp only
    rw [hback]
  · simp only [destroy]
    rw [decr_some_ok _ i (c + 1) hself hmin1]
    simp only
    rw [hback]
  · intro h1
    have hmin2 : INT_MIN < c := by unfold INT_MIN; omega
    refine ⟨fun p3 g ha => allocate_skips_slot_in_use hself (by omega) ha, ?_,
      fun p3 g ha => allocate_skips_slot_in_use hc h1 ha, ?_⟩
    · refine ⟨{ h with _reference_count := none, _data := none }, ?_, rfl⟩
      simp only [release, hlive]
      rw [decr_some_ok _ i (c + 1) hself hmin1]
      simp only
      rw [hback]
    · refine ⟨{ p with reference_counts := p.reference_counts.set i (c - 1) }, 
        { _data := none,
          _length := to_size_t
            (if len < 0 then to_int ((h._length + (SIZE_RANGE - to_size_t idx)) % SIZE_RANGE)
             else len),
          _reference_count := none }, ?_, getElem?_set_self_of_some _ _ _ _ hc⟩
      simp only [release]
      rw [decr_some_ok _ i c hc hmin2]

/-- Witness for C8: the first handle of a pool of block length 64, sliced at `(16, 32)`. -/
theorem slice_shares_reference_count_witness :
    allocate (AudioBufferPool.construct 64) = .ok (pool_one_live, handle_slot0) ∧
    ∃ p1 s, AudioBufferHandle.slice pool_one_live handle_slot0 16 32 = .ok (p1, s) ∧
      s._reference_count = handle_slot0._reference_count ∧
      p1.reference_counts[0]? = some (1 + 1) ∧
      (∀ j, j ≠ 0 → p1.reference_counts[j]? = pool_one_live.reference_counts[j]?) ∧
      (∃ s1, release p1 s = .ok (pool_one_live, s1) ∧ s1._reference_count = none) ∧
      destroy p1 s = .ok pool_one_live ∧
      ((1 : Int) ≤ 1 →
        (∀ p3 g, allocate p1 = .ok (p3, g) → g._reference_count ≠ some 0) ∧
        (∃ h1, release p1 handle_slot0 = .ok (pool_one_live, h1) ∧ h1._reference_count = none) ∧
        (∀ p3 g, allocate pool_one_live = .ok (p3, g) → g._reference_count ≠ some 0) ∧
        (∃ p4 s1, release pool_one_live s = .ok (p4, s1) ∧ p4.reference_counts[0]? = some (1 - 1))) :=
  ⟨rfl, slice_shares_reference_count pool_one_live handle_slot0 0 1 16 32 rfl rfl (by decide) (by decide)⟩

/-- Counterexample to C9 as stated: a handle of length `2 ^ 31` sliced with `slice(0)` gets
size `2 ^ 64 - 2 ^ 31`, not `L - idx = 2 ^ 31`, because `_length - idx` is narrowed to `int`;
a released handle, which still has its length, cannot be sliced at all (null dereference);
and neither can a handle whose slot has count `INT_MAX` (signed overflow). -/
theorem slice_default_length_wraps :
    (∃ p h p1 s, allocate (AudioBufferPool.construct (2 ^ 31)) = .ok (p, h) ∧
      h._length = 2 ^ 31 ∧ AudioBufferHandle.slice p h 0 (-1) = .ok (p1, s) ∧
      s.size = 18446744071562067968 ∧ s.size ≠ 2 ^ 31 - 0) ∧
    (∃ p h p1 h1, allocate (AudioBufferPool.construct 128) = .ok (p, h) ∧
      release p h = .ok (p1, h1) ∧ h1.size = 128 ∧
      AudioBufferHandle.slice p1 h1 64 (-1) = .error .null_deref) ∧
    AudioBufferHandle.slice pool_at_int_limits handle_slot0 0 (-1) = .error .signed_overflow :=
  ⟨⟨_, _, _, _, rfl, rfl, rfl, by decide, by decide⟩, ⟨_, _, _, _, rfl, rfl, rfl, rfl⟩, rfl⟩

/-- Claim C9, amended. For every live handle `h` of length `L` whose slot has a count below
`INT_MAX`, every `idx` with `0 ≤ idx < L` and every `len`: `h.slice(idx, len)` returns a handle
that starts at `h.data() + idx`, so element `j` of the slice is element `idx + j` of `h`; when
`0 ≤ len ≤ L - idx` its size is `len`; when `len` is negative (or omitted) and `L - idx` fits an
`int` its size is `L - idx`; in both cases the range of the slice lies inside the range of `h`. -/
theorem slice_views_subrange (p : AudioBufferPool) (h : AudioBufferHandle) (i : Nat) (c : Int)
    (idx len : Int) (hlive : h._reference_count = some i)
    (hc : p.reference_counts[i]? = some c) (hmax : c < INT_MAX)
    (hL : h._length < SIZE_RANGE) (h0 : 0 ≤ idx) (hidx : idx < h._length) :
    ∃ p1 s, AudioBufferHandle.slice p h idx len = .ok (p1, s) ∧
      s.data = ptr_add h.data idx ∧
      (∀ j : Nat, index_addr s j = index_addr h (idx.toNat + j)) ∧
      (∀ j : Nat, AudioBufferHandle.get p1 s j = AudioBufferHandle.get p1 h (idx.toNat + j)) ∧
      (0 ≤ len → len ≤ h._length - idx →
        (s.size : Int) = len ∧ idx + s.size ≤ h.size) ∧
      (len < 0 → (h._length : Int) - idx ≤ INT_MAX →
        (s.size : Int) = h._length - idx ∧ idx + s.size ≤ h.size) := by
  refine ⟨_, _, slice_ok p h i c idx len hlive hc hmax, rfl,
    fun j => ptr_add_add h._data idx j h0, fun j => ?_, ?_, ?_⟩
  · simp only [AudioBufferHandle.get, index_addr]
    rw [ptr_add_add h._data idx j h0]
  · intro hlen0 hlen
    have hlt : ¬ len < 0 := by omega
    simp only [AudioBufferHandle.size, hlt, if_false]
    have : len < SIZE_RANGE := by
      have : (h._length : Int) < SIZE_RANGE := by exact_mod_cast hL
      omega
    rw [to_size_t_of_nonneg len hlen0 this]
    exact ⟨rfl, by omega⟩
  · intro hneg hfit
    simp only [AudioBufferHandle.size, hneg, if_true]
    rw [slice_default_length h._length idx hL h0 hidx hfit]
    exact ⟨rfl, by omega⟩

/-- Witness for C9: the first handle of a pool of block length 128; `slice(64)` has size 64
and starts at sample offset 64 of the same array. -/
theorem slice_views_subrange_witness :
    allocate (AudioBufferPool.construct 128) = .ok (pool_one_live_128, handle_slot0_128) ∧
    handle_slot0_128.size = 128 ∧
    ∃ p1 s, AudioBufferHandle.slice pool_one_live_128 handle_slot0_128 64 (-1) = .ok (p1, s) ∧
      s.data = ptr_add handle_slot0_128.data 64 ∧
      s.data = some { block := 1, off := 64 } ∧
      (∀ j : Nat, index_addr s j = index_addr handle_slot0_128 (64 + j)) ∧
      (∀ j : Nat, AudioBufferHandle.get p1 s j = AudioBufferHandle.get p1 handle_slot0_128 (64 + j)) ∧
      (s.size : Int) = 64 ∧ (64 : Int) + s.size ≤ handle_slot0_128.size := by
  obtain ⟨p1, s, h1, h2, h3, h4, -, h6⟩ :=
    slice_views_subrange pool_one_live_128 handle_slot0_128 0 1 64 (-1) rfl rfl (by decide)
      (by decide) (by decide) (by decide)
  have h7 := h6 (by decide) (by decide)
  refine ⟨rfl, rfl, p1, s, h1, h2, ?_, h3, h4, ?_, ?_⟩
  · rw [h2]
    rfl
  · simpa [handle_slot0_128] using h7.1
  · simpa [handle_slot0_128] using h7.2

/-- Counterexample to C10 as stated: `clear()` on a released handle, which still has size 64,
writes through a null pointer; `clear()` on a handle kept across `set_buffer_size` writes into
the freed bank; and with block length 306783379 and slots 0 to 6 in use `allocate_clear()`
writes outside the bank, because the offset of slot 7 does not fit the `int index`. -/
theorem clear_of_released_handle_faults :
    (∃ p h p1 h1, allocate (AudioBufferPool.construct 64) = .ok (p, h) ∧
      release p h = .ok (p1, h1) ∧ h1.size = 64 ∧ clear p1 h1 = .error .null_deref) ∧
    (∃ p h, allocate (AudioBufferPool.construct 64) = .ok (p, h) ∧ h.size = 64 ∧
      clear (set_buffer_size p 32) h = .error .use_after_free) ∧
    (∃ p hs, allocate_n (AudioBufferPool.construct 306783379) 7 = .ok (p, hs) ∧
      p.reference_counts = [1, 1, 1, 1, 1, 1, 1, 0] ∧
      allocate_clear p = .error .out_of_bounds) :=
  ⟨⟨_, _, _, _, rfl, rfl, rfl, rfl⟩, ⟨_, _, rfl, rfl, rfl⟩, ⟨_, _, rfl, rfl, rfl⟩⟩

/-- Claim C10, amended. For every handle `h` whose data pointer is not null and whose range
`[0, size())` lies inside the current bank: `clear()` returns; afterwards every sample of `h`
reads 0; no sample of the bank outside the range of `h` changes, so an element of any handle
(the parent of a slice, a handle to another slot) that lies outside that range reads as before;
no count changes; and if `h` is the handle that `allocate()` just returned, `allocate_clear()`
returns that same handle with the same counts and the cleared bank. -/
theorem clear_zero_fills_only_visible_range (p : AudioBufferPool) (h : AudioBufferHandle)
    (q : Ptr) (hq : h._data = some q) (hblock : q.block = p.data_block) (h0 : 0 ≤ q.off)
    (hin : q.off + h._length ≤ p.data_size) :
    ∃ p2, clear p h = .ok p2 ∧
      (∀ j, j < h.size → AudioBufferHandle.get p2 h j = .ok 0) ∧
      (∀ a : Nat, ¬ (q.off ≤ (a : Int) ∧ (a : Int) < q.off + h._length) → p2.data a = p.data a) ∧
      (∀ (g : AudioBufferHandle) (j : Nat),
        (∀ r, index_addr g j = some r → r.block = q.block →
          ¬ (q.off ≤ r.off ∧ r.off < q.off + h._length)) →
        AudioBufferHandle.get p2 g j = AudioBufferHandle.get p g j) ∧
      p2.reference_counts = p.reference_counts ∧
      (∀ p0, allocate p0 = .ok (p, h) → allocate_clear p0 = .ok (p2, h)) := by
  by_cases hpos : h._length = 0
  · refine ⟨p, by simp [clear, hpos], ?_, fun a _ => rfl, fun g j _ => rfl, rfl, ?_⟩
    · intro j hj
      simp [AudioBufferHandle.size, hpos] at hj
    · intro p0 ha
      simp [allocate_clear, ha, clear, hpos]
  · have hclear := clear_ok_of_in_bank p h q hq hblock h0 hin hpos
    refine ⟨_, hclear, ?_, ?_, ?_, rfl, ?_⟩
    · intro j hj
      simp only [AudioBufferHandle.size] at hj
      have h1 : 0 ≤ q.off + (j : Int) := by omega
      have h2 : q.off + (j : Int) < p.data_size := by omega
      have h3 : q.off ≤ ((q.off + (j : Int)).toNat : Int) ∧
          ((q.off + (j : Int)).toNat : Int) < q.off + h._length := by
        rw [Int.toNat_of_nonneg h1]
        omega
      simp only [AudioBufferHandle.get, index_addr, ptr_add, hq, Option.map, load, hblock,
        ne_eq, not_true_eq_false, if_false, h1, h2, and_self, if_true]
      rw [if_pos h3]
    · intro a ha
      simp only
      rw [if_neg ha]
    · intro g j hout
      simp only [AudioBufferHandle.get]
      cases hg : index_addr g j with
      | none => rfl
      | some r =>
        simp only [load]
        by_cases hb : r.block ≠ p.data_block
        · simp [hb]
        · simp only [hb, if_false]
          by_cases hr : 0 ≤ r.off ∧ r.off < (p.data_size : Int)
          · simp only [hr, and_self, if_true]
            have hb2 : r.block = q.block := by
              rw [hblock]
              exact not_not.1 hb
            have := hout r hg hb2
            rw [Int.toNat_of_nonneg hr.1]
            rw [if_neg this]
          · simp [hr]
    · intro p0 ha
      simp [allocate_clear, ha, hclear]

/-- Witness for C10, on a bank in which no sample is 0 (sample `a` holds `a + 1`). The handle
of slot 0 of a pool of block length 64: its samples read 6 and 64 before `clear()` and 0
after, sample 0 of slot 1 reads 65 before and after, the counts stay, and `allocate_clear()`
returns the handle of `allocate()` with its samples zeroed. The slice `[16, 48)` of that
handle: after `clear()` on the slice, samples 16 and 47 of the parent read 0 while samples 15
and 48 of the parent and sample 0 of slot 1 keep their values. -/
theorem clear_zero_fills_only_visible_range_witness :
    allocate pool_ramp_free = .ok (pool_ramp, handle_slot0) ∧
    AudioBufferHandle.get pool_ramp handle_slot0 5 = .ok 6 ∧
    AudioBufferHandle.get pool_ramp handle_slot0 63 = .ok 64 ∧
    AudioBufferHandle.get pool_ramp handle_slot1 0 = .ok 65 ∧
    (∃ p2, clear pool_ramp handle_slot0 = .ok p2 ∧
      (∀ j, j < handle_slot0.size → AudioBufferHandle.get p2 handle_slot0 j = .ok 0) ∧
      AudioBufferHandle.get p2 handle_slot0 5 = .ok 0 ∧
      AudioBufferHandle.get p2 handle_slot0 63 = .ok 0 ∧
      AudioBufferHandle.get p2 handle_slot1 0 = .ok 65 ∧
      (∀ a : Nat, 64 ≤ a → p2.data a = ramp a) ∧
      p2.reference_counts = [1, 0, 0, 0, 0, 0, 0, 0] ∧
      allocate_clear pool_ramp_free = .ok (p2, handle_slot0)) ∧
    AudioBufferHandle.slice pool_ramp handle_slot0 16 32 =
      .ok (pool_ramp_sliced, handle_slice_16_32) ∧
    AudioBufferHandle.get pool_ramp_sliced handle_slot0 16 = .ok 17 ∧
    AudioBufferHandle.get pool_ramp_sliced handle_slot0 47 = .ok 48 ∧
    (∃ p3, clear pool_ramp_sliced handle_slice_16_32 = .ok p3 ∧
      (∀ j, j < handle_slice_16_32.size →
        AudioBufferHandle.get p3 handle_slice_16_32 j = .ok 0) ∧
      AudioBufferHandle.get p3 handle_slot0 15 = .ok 16 ∧
      AudioBufferHandle.get p3 handle_slot0 16 = .ok 0 ∧
      AudioBufferHandle.get p3 handle_slot0 47 = .ok 0 ∧
      AudioBufferHandle.get p3 handle_slot0 48 = .ok 49 ∧
      AudioBufferHandle.get p3 handle_slot1 0 = .ok 65 ∧
      (∀ a : Nat, a < 16 ∨ 48 ≤ a → p3.data a = ramp a) ∧
      p3.reference_counts = [2, 0, 0, 0, 0, 0, 0, 0]) := by
  obtain ⟨p2, hclear, hzero, hframe, hother, hcounts, halloc⟩ :=
    clear_zero_fills_only_visible_range pool_ramp handle_slot0 { block := 1, off := 0 }
      rfl rfl (by decide) (by decide)
  obtain ⟨p3, hclear3, hzero3, hframe3, hother3, hcounts3, -⟩ :=
    clear_zero_fills_only_visible_range pool_ramp_sliced handle_slice_16_32
      { block := 1, off := 16 } rfl rfl (by decide) (by decide)
  have hout : ∀ (lo len : Int) (g : AudioBufferHandle) (j : Nat) (r0 : Ptr),
      index_addr g j = some r0 → ¬ (lo ≤ r0.off ∧ r0.off < lo + len) →
      ∀ r, index_addr g j = some r → r.block = 1 → ¬ (lo ≤ r.off ∧ r.off < lo + len) := by
    intro lo len g j r0 h0 hn r hr _
    rw [h0] at hr
    cases hr
    exact hn
  refine ⟨rfl, rfl, rfl, rfl,
    ⟨p2, hclear, hzero, hzero 5 (by decide), hzero 63 (by decide), ?_, ?_, hcounts,
      halloc _ rfl⟩,
    rfl, rfl, rfl,
    ⟨p3, hclear3, hzero3, ?_, hzero3 0 (by decide), hzero3 31 (by decide), ?_, ?_, ?_,
      hcounts3⟩⟩
  · exact (hother handle_slot1 0
      (hout 0 _ handle_slot1 0 { block := 1, off := 64 } rfl (by decide))).trans rfl
  · intro a ha
    have := hframe a (by
      simp only [handle_slot0]
      omega)
    exact this
  · exact (hother3 handle_slot0 15
      (hout 16 _ handle_slot0 15 { block := 1, off := 15 } rfl (by decide))).trans rfl
  · exact (hother3 handle_slot0 48
      (hout 16 _ handle_slot0 48 { block := 1, off := 48 } rfl (by decide))).trans rfl
  · exact (hother3 handle_slot1 0
      (hout 16 _ handle_slot1 0 { block := 1, off := 64 } rfl (by decide))).trans rfl
  · intro a ha
    have := hframe3 a (by
      simp only [handle_slice_16_32]
      omega)
    exact this

/-! ## Facts about `allocate_multi` -/

/-- The scan of `allocate` returns the head of the list of free slots. -/
theorem first_free_eq_head (l : List Int) (n : Nat) :
    first_free l n = (free_slots l n).head? := by
  induction l generalizing n with
  | nil => rfl
  | cons c cs ih =>
    unfold first_free free_slots
    by_cases hc : c < 1
    · simp [hc]
    · simp [hc, ih]

/-- Taking the first free slot removes the head of the list of free slots. -/
theorem free_slots_set_first (l : List Int) (n i : Nat) (h : first_free l n = some i) :
    free_slots (l.set (i - n) 1) n = (free_slots l n).tail := by
  induction l generalizing n with
  | nil => simp [first_free] at h
  | cons c cs ih =>
    unfold first_free at h
    by_cases hc : c < 1
    · simp [hc] at h
      subst h
      simp [free_slots, hc]
    · simp [hc] at h
      have hge : n + 1 ≤ i := (first_free_some h).1
      have e : i - n = (i - (n + 1)) + 1 := by omega
      rw [e, List.set_cons_succ]
      simp only [free_slots, hc, if_false]
      exact ih (n + 1) h

/-- Free slots are listed in strictly increasing order, from the start index on. -/
theorem free_slots_sorted (l : List Int) (n : Nat) :
    (free_slots l n).Pairwise (· < ·) ∧ ∀ i ∈ free_slots l n, n ≤ i := by
  induction l generalizing n with
  | nil => simp [free_slots]
  | cons c cs ih =>
    obtain ⟨h1, h2⟩ := ih (n + 1)
    unfold free_slots
    by_cases hc : c < 1
    · simp only [hc, if_true, List.pairwise_cons, List.mem_cons]
      refine ⟨⟨fun a ha => ?_, h1⟩, fun i hi => ?_⟩
      · have := h2 a ha
        omega
      · rcases hi with rfl | hi
        · exact Nat.le_refl _
        · have := h2 i hi
          omega
    · simp only [hc, if_false]
      exact ⟨h1, fun i hi => by have := h2 i hi; omega⟩

/-- A listed free slot has a count below 1. -/
theorem free_slots_mem (l : List Int) (n i : Nat) (hi : i ∈ free_slots l n) :
    ∃ c, l[i - n]? = some c ∧ c < 1 := by
  induction l generalizing n with
  | nil => simp [free_slots] at hi
  | cons c cs ih =>
    have hsorted := (free_slots_sorted cs (n + 1)).2
    unfold free_slots at hi
    by_cases hc : c < 1
    · simp only [hc, if_true, List.mem_cons] at hi
      rcases hi with rfl | hi
      · exact ⟨c, by simp, hc⟩
      · have hge := hsorted i hi
        obtain ⟨d, hd, hd1⟩ := ih (n + 1) hi
        have e : i - n = (i - (n + 1)) + 1 := by omega
        exact ⟨d, by rw [e]; simpa using hd, hd1⟩
    · simp only [hc, if_false] at hi
      have hge := hsorted i hi
      obtain ⟨d, hd, hd1⟩ := ih (n + 1) hi
      have e : i - n = (i - (n + 1)) + 1 := by omega
      exact ⟨d, by rw [e]; simpa using hd, hd1⟩
/-- When at least `K` slots are free, `K` calls of `allocate()` in a row return handles to the
`K` lowest free slots in increasing order, set their counts to 1 and change no other count. -/
theorem generate_array_allocate_ok (K : Nat) (p : AudioBufferPool) (i0 : Nat)
    (hK : K ≤ (free_slots p.reference_counts 0).length) :
    ∃ p1, generate_array (fun q _ => AudioBufferPool.allocate q) p i0 K =
        .ok (p1, ((free_slots p.reference_counts 0).take K).map p.slot_handle) ∧
      p1.buffer_size = p.buffer_size ∧ p1.data_block = p.data_block ∧
      p1.data_size = p.data_size ∧ p1.data = p.data ∧
      p1.reference_counts.length = p.reference_counts.length ∧
      free_slots p1.reference_counts 0 = (free_slots p.reference_counts 0).drop K ∧
      (∀ j, j ∈ (free_slots p.reference_counts 0).take K → p1.reference_counts[j]? = some 1) ∧
      (∀ j, j ∉ (free_slots p.reference_counts 0).take K →
        p1.reference_counts[j]? = p.reference_counts[j]?) := by
  induction K generalizing p i0 with
  | zero => exact ⟨p, by simp [generate_array], rfl, rfl, rfl, rfl, rfl, by simp, by simp, by simp⟩
  | succ k ih =>
    cases hF : free_slots p.reference_counts 0 with
    | nil => simp [hF] at hK
    | cons i F =>
      have hff : first_free p.reference_counts 0 = some i := by
        rw [first_free_eq_head, hF]; rfl
      have halloc := allocate_of_first_free hff
      have htail := free_slots_set_first p.reference_counts 0 i hff
      simp only [Nat.sub_zero, hF, List.tail_cons] at htail
      obtain ⟨c, hc, -⟩ := free_slots_mem p.reference_counts 0 i (by rw [hF]; simp)
      simp only [Nat.sub_zero] at hc
      have hk : k ≤ (free_slots ({ p with
          _max_val := if i > p._max_val then i else p._max_val,
          reference_counts := p.reference_counts.set i 1 } : AudioBufferPool).reference_counts
            0).length := by
        simp only [htail]
        rw [hF] at hK
        simpa using hK
      obtain ⟨p1, hrun, hbs, hblock, hsize, hdata, hlen, hfree, hone, hother⟩ :=
        ih _ (i0 + 1) hk
      simp only [htail] at hrun hfree hone hother
      refine ⟨p1, ?_, hbs, hblock, hsize, hdata, by simpa using hlen, by simpa using hfree,
        ?_, ?_⟩
      · simp only [generate_array, halloc, hrun, List.take_succ_cons, List.map_cons]
        rfl
      · intro j hj
        simp only [List.take_succ_cons, List.mem_cons] at hj
        by_cases hjF : j ∈ F.take k
        · exact hone j hjF
        · rcases hj with rfl | hj
          · rw [hother j hjF]
            exact getElem?_set_self_of_some _ _ _ _ hc
          · exact absurd hj hjF
      · intro j hj
        simp only [List.take_succ_cons, List.mem_cons, not_or] at hj
        rw [hother j hj.2]
        exact getElem?_set_other _ _ _ _ hj.1

/-- When fewer than `K` slots are free, `K` calls of `allocate()` in a row end in
`std::terminate`. -/
theorem generate_array_allocate_fatal (K : Nat) (p : AudioBufferPool) (i0 : Nat)
    (hK : (free_slots p.reference_counts 0).length < K) :
    generate_array (fun q _ => AudioBufferPool.allocate q) p i0 K = .error .terminate := by
  induction K generalizing p i0 with
  | zero => omega
  | succ k ih =>
    cases hF : free_slots p.reference_counts 0 with
    | nil =>
      have hff : first_free p.reference_counts 0 = none := by
        rw [first_free_eq_head, hF]; rfl
      simp [generate_array, AudioBufferPool.allocate, hff]
    | cons i F =>
      have hff : first_free p.reference_counts 0 = some i := by
        rw [first_free_eq_head, hF]; rfl
      have halloc := allocate_of_first_free hff
      have htail := free_slots_set_first p.reference_counts 0 i hff
      simp only [Nat.sub_zero, hF, List.tail_cons] at htail
      have hk : (free_slots ({ p with
          _max_val := if i > p._max_val then i else p._max_val,
          reference_counts := p.reference_counts.set i 1 } : AudioBufferPool).reference_counts
            0).length < k := by
        simp only [htail]
        rw [hF] at hK
        simpa using hK
      simp only [generate_array, halloc, ih _ (i0 + 1) hk]

/-- Handles of two different slots whose offsets fit an `int` view disjoint sample ranges, the
lower slot first. -/
theorem slot_handle_ranges_disjoint (p : AudioBufferPool) (i j : Nat) (hij : i < j)
    (hfit : ((j * p.buffer_size : Nat) : Int) ≤ INT_MAX) :
    ∃ a b c d, (p.slot_handle i).range = some (a, b) ∧ (p.slot_handle j).range = some (c, d) ∧
      b ≤ c := by
  have hmul : (i + 1) * p.buffer_size ≤ j * p.buffer_size := Nat.mul_le_mul_right _ hij
  have hmul2 : i * p.buffer_size + p.buffer_size ≤ j * p.buffer_size := by
    rw [← Nat.succ_mul]; exact hmul
  have hfiti : ((i * p.buffer_size : Nat) : Int) ≤ INT_MAX := by omega
  have hlt : ∀ n : Nat, (n : Int) ≤ INT_MAX → n < SIZE_RANGE := by
    intro n hn
    unfold INT_MAX at hn
    unfold SIZE_RANGE
    have : (2 : Nat) ^ 64 = 18446744073709551616 := by norm_num
    omega
  refine ⟨_, _, _, _, rfl, rfl, ?_⟩
  simp only [AudioBufferPool.slot_handle]
  rw [Nat.mod_eq_of_lt (hlt _ hfiti), Nat.mod_eq_of_lt (hlt _ hfit), to_int_of_le _ hfiti,
    to_int_of_le _ hfit]
  omega

/-- First fit for several buffers: if at least `K` slots are free, `allocate_multi<K>()` returns
handles to the `K` lowest free slots in increasing order (so to pairwise distinct slots), each
of the size of a block, sets exactly their counts to 1, and any two of the handles whose
offsets fit an `int` view disjoint ranges; if fewer than `K` slots are free it is fatal. -/
theorem allocate_multi_first_fit (K : Nat) (p : AudioBufferPool) :
    (K ≤ (free_slots p.reference_counts 0).length →
      ∃ p1, allocate_multi K p =
          .ok (p1, ((free_slots p.reference_counts 0).take K).map p.slot_handle) ∧
        ((free_slots p.reference_counts 0).take K).Pairwise (· < ·) ∧
        (∀ j, j ∈ (free_slots p.reference_counts 0).take K → p1.reference_counts[j]? = some 1) ∧
        (∀ j, j ∉ (free_slots p.reference_counts 0).take K →
          p1.reference_counts[j]? = p.reference_counts[j]?) ∧
        (∀ i j, i < j → ((j * p.buffer_size : Nat) : Int) ≤ INT_MAX →
          ∃ a b c d, (p.slot_handle i).range = some (a, b) ∧
            (p.slot_handle j).range = some (c, d) ∧ b ≤ c)) ∧
    ((free_slots p.reference_counts 0).length < K →
      allocate_multi K p = .error .terminate) := by
  constructor
  · intro hK
    obtain ⟨p1, hrun, -, -, -, -, -, -, hone, hother⟩ := generate_array_allocate_ok K p 0 hK
    exact ⟨p1, hrun, ((free_slots_sorted p.reference_counts 0).1).sublist (List.take_sublist _ _),
      hone, hother, fun i j hij hfit => slot_handle_ranges_disjoint p i j hij hfit⟩
  · intro hK
    exact generate_array_allocate_fatal K p 0 hK

/-! ## Facts about assignment between handles -/

/-- Writing cell `i` changes `count_at` at `i` only. -/
theorem count_at_set (rc : List Int) (i s : Nat) (c v : Int) (hc : rc[i]? = some c) :
    count_at (rc.set i v) s = if s = i then v else count_at rc s := by
  unfold count_at
  by_cases hs : s = i
  · subst hs
    simp [getElem?_set_self_of_some rc s c v hc]
  · simp [hs, getElem?_set_other rc i s v hs]

/-- An existing element is its own `count_at`. -/
theorem count_at_of_some (rc : List Int) (i : Nat) (c : Int) (hc : rc[i]? = some c) :
    count_at rc i = c := by
  simp [count_at, hc]

/-- A positive `count_at` is an existing element. -/
theorem getElem?_of_count_at_pos (rc : List Int) (i : Nat) (h : 0 < count_at rc i) :
    rc[i]? = some (count_at rc i) := by
  unfold count_at at h ⊢
  cases hrc : rc[i]? with
  | none => simp [hrc] at h
  | some c => simp

/-- The gap of a world in terms of a count vector and a handle list. -/
theorem World.gap_mk (p : AudioBufferPool) (hs : List (Nat × AudioBufferHandle)) (n s : Nat) :
    ({ pool := p, handles := hs, allocations := n } : World).gap s =
      count_at p.reference_counts s - live_refs hs s := rfl

/-- No operation of `World.step` lowers a gap or changes the number of counts. -/
theorem World.step_gap {w w1 : World} {op : Op} (hs : w.step op = some w1) (s : Nat) :
    w1.pool.reference_counts.length = w.pool.reference_counts.length ∧ w.gap s ≤ w1.gap s := by
  unfold World.gap
  cases op with
  | allocate =>
    simp only [World.step] at hs
    split at hs
    · rename_i p h ha
      cases hs
      obtain ⟨i, c, -, hc, hc1, rfl, rfl⟩ := allocate_ok_inv ha
      refine ⟨by simp, ?_⟩
      simp only [live_refs_append, count_at_set _ i s c 1 hc]
      by_cases hsi : s = i
      · subst hsi
        rw [count_at_of_some _ _ _ hc]
        simp
        omega
      · have hne : ¬ some i = some s := fun e => hsi (Option.some.inj e).symm
        simp [hsi, hne]
    · cases hs
  | copy k =>
    simp only [World.step] at hs
    split at hs
    · cases hs
    · rename_i o h hk
      split at hs
      · rename_i p h1 hcopy
        cases hs
        unfold copy_construct at hcopy
        split at hcopy
        · cases hcopy
        · rename_i p1 hincr
          cases hcopy
          obtain ⟨i, c, hcell, hc, -, rfl⟩ := incr_ok_inv hincr
          refine ⟨by simp, ?_⟩
          simp only [live_refs_append, count_at_set _ i s c (c + 1) hc, hcell]
          by_cases hsi : s = i
          · subst hsi
            rw [count_at_of_some _ _ _ hc]
            simp
          · have hne : ¬ some i = some s := fun e => hsi (Option.some.inj e).symm
            simp [hsi, hne]
      · cases hs
  | move k =>
    simp only [World.step] at hs
    split at hs
    · cases hs
    · rename_i o h hk
      cases hs
      refine ⟨rfl, ?_⟩
      have hl := live_refs_set w.handles k (o, (move_construct h).2) (o, h) hk s
      simp only [live_refs_append]
      simp only [move_construct] at hl ⊢
      by_cases hj : h._reference_count = some s
      · simp [hj] at hl ⊢
        omega
      · simp [hj] at hl ⊢
        omega
  | slice k idx length =>
    simp only [World.step] at hs
    split at hs
    · cases hs
    · rename_i o h hk
      split at hs
      · split at hs
        · rename_i p h1 hslice
          cases hs
          unfold AudioBufferHandle.slice at hslice
          simp only at hslice
          split at hslice
          · cases hslice
          · rename_i i hcell
            unfold AudioBufferHandle.construct at hslice
            split at hslice
            · cases hslice
            · rename_i p1 hincr
              cases hslice
              obtain ⟨i1, c, hi1, hc, -, rfl⟩ := incr_ok_inv hincr
              cases hi1
              refine ⟨by simp, ?_⟩
              simp only [live_refs_append, count_at_set _ i s c (c + 1) hc]
              by_cases hsi : s = i
              · subst hsi
                rw [count_at_of_some _ _ _ hc]
                simp
              · have hne : ¬ some i = some s := fun e => hsi (Option.some.inj e).symm
                simp [hsi, hne]
        · cases hs
      · cases hs
  | release k =>
    simp only [World.step] at hs
    split at hs
    · cases hs
    · rename_i o h hk
      split at hs
      · rename_i p h1 hrel
        cases hs
        unfold AudioBufferHandle.release at hrel
        split at hrel
        · cases hrel
        · rename_i p1 hdecr
          cases hrel
          obtain ⟨i, c, hcell, hc, -, rfl⟩ := decr_ok_inv hdecr
          refine ⟨by simp, ?_⟩
          have hl := live_refs_set w.handles k
            (o, { h with _reference_count := none, _data := none }) (o, h) hk s
          simp only [count_at_set _ i s c (c - 1) hc]
          simp only [hcell] at hl
          by_cases hsi : s = i
          · subst hsi
            rw [count_at_of_some _ _ _ hc]
            simp at hl ⊢
            omega
          · have hne : ¬ some i = some s := fun e => hsi (Option.some.inj e).symm
            simp [hne] at hl
            simp [hsi]
            omega
      · cases hs
  | destroy k =>
    simp only [World.step] at hs
    split at hs
    · cases hs
    · rename_i o h hk
      split at hs
      · rename_i p hdes
        cases hs
        have hl := live_refs_eraseIdx w.handles k (o, h) hk s
        unfold AudioBufferHandle.destroy at hdes
        split at hdes
        · rename_i hnull
          cases hdes
          refine ⟨rfl, ?_⟩
          simp [hnull] at hl
          simp only
          omega
        · rename_i i hcell
          obtain ⟨i1, c, hi1, hc, -, rfl⟩ := decr_ok_inv hdes
          cases hi1
          refine ⟨by simp, ?_⟩
          simp only [count_at_set _ i s c (c - 1) hc]
          simp only [hcell] at hl
          by_cases hsi : s = i
          · subst hsi
            rw [count_at_of_some _ _ _ hc]
            simp at hl ⊢
            omega
          · have hne : ¬ some i = some s := fun e => hsi (Option.some.inj e).symm
            simp [hne] at hl
            simp [hsi]
            omega
      · cases hs
/-- An assignment onto a handle that points to cell `s` raises the gap of `s` by exactly 1:
the count of `s` is not decremented although the handle stops pointing to it. No assignment
lowers any gap. -/
theorem World.assign_gap {w w1 : World} {k1 k2 : Nat}
    (hs : w.step2 (.copy_assign k1 k2) = some w1 ∨ w.step2 (.move_assign k1 k2) = some w1)
    (s : Nat) :
    w1.pool.reference_counts.length = w.pool.reference_counts.length ∧
    ∃ ob b, w.handles[k1]? = some (ob, b) ∧
      w1.gap s = w.gap s + (if b._reference_count = some s then 1 else 0) := by
  unfold World.gap
  rcases hs with hs | hs
  · simp only [World.step2] at hs
    split at hs
    · rename_i ob b oa a hk1 hk2
      split at hs
      · rename_i p b1 hassign
        cases hs
        unfold copy_assign at hassign
        split at hassign
        · cases hassign
        · rename_i p1 hincr
          cases hassign
          obtain ⟨t, c, hcell, hc, -, rfl⟩ := incr_ok_inv hincr
          refine ⟨by simp, ob, b, hk1, ?_⟩
          have hl := live_refs_set w.handles k1
            (oa, { _data := a._data, _length := a._length,
                   _reference_count := a._reference_count }) (ob, b) hk1 s
          simp only [count_at_set _ t s c (c + 1) hc]
          by_cases hst : s = t
          · subst hst
            rw [count_at_of_some _ _ _ hc]
            by_cases hb : b._reference_count = some s
            · simp [hb, hcell] at hl ⊢
              omega
            · simp [hb, hcell] at hl ⊢
              omega
          · have hne : ¬ t = s := fun e => hst e.symm
            by_cases hb : b._reference_count = some s
            · simp [hb, hcell, hne] at hl
              simp [hst, hb, hcell]
              omega
            · simp [hb, hcell, hne] at hl
              simp [hst, hb, hcell]
              omega
      · cases hs
    · cases hs
  · simp only [World.step2] at hs
    split at hs
    · rename_i ob b oa a hk1 hk2
      cases hs
      refine ⟨rfl, ob, b, hk1, ?_⟩
      have hl1 := live_refs_set w.handles k1 (oa, (move_assign b a).1) (ob, b) hk1 s
      have hk2' : ∃ y : Nat × AudioBufferHandle,
          (w.handles.set k1 (oa, (move_assign b a).1))[k2]? = some y ∧
            y.2._reference_count = a._reference_count := by
        by_cases hk : k1 = k2
        · subst hk
          have hlen : k1 < w.handles.length := by
            by_contra hcon
            rw [List.getElem?_eq_none (by omega)] at hk1
            cases hk1
          exact ⟨(oa, (move_assign b a).1), by simp [hlen], rfl⟩
        · exact ⟨(oa, a), by rw [List.getElem?_set_ne hk]; exact hk2, rfl⟩
      obtain ⟨y, hy, hyrc⟩ := hk2'
      have hl2 := live_refs_set (w.handles.set k1 (oa, (move_assign b a).1)) k2
        (oa, (move_assign b a).2) y hy s
      simp only [move_assign, hyrc] at hl1 hl2 ⊢
      by_cases hb : b._reference_count = some s <;> by_cases ha : a._reference_count = some s
      · simp [hb, ha] at hl1 hl2 ⊢
        omega
      · simp [hb, ha] at hl1 hl2 ⊢
        omega
      · simp [hb, ha] at hl1 hl2 ⊢
        omega
      · simp [hb, ha] at hl1 hl2 ⊢
        omega
    · cases hs

/-- No operation of `World.step2` lowers a gap; a pool of 8 counts keeps 8 counts. -/
theorem World.step2_gap {w w1 : World} {op : Op2} (hs : w.step2 op = some w1) (s : Nat)
    (hlen : w.pool.reference_counts.length = number_of_buffers) :
    w1.pool.reference_counts.length = number_of_buffers ∧ w.gap s ≤ w1.gap s := by
  cases op with
  | base op =>
    obtain ⟨h1, h2⟩ := World.step_gap (show w.step op = some w1 from hs) s
    exact ⟨h1.trans hlen, h2⟩
  | copy_assign k1 k2 =>
    obtain ⟨h1, ob, b, -, h2⟩ := World.assign_gap (Or.inl hs) s
    refine ⟨h1.trans hlen, ?_⟩
    rw [h2]
    split <;> omega
  | move_assign k1 k2 =>
    obtain ⟨h1, ob, b, -, h2⟩ := World.assign_gap (Or.inr hs) s
    refine ⟨h1.trans hlen, ?_⟩
    rw [h2]
    split <;> omega
  | set_buffer_size bs =>
    simp only [World.step2] at hs
    split at hs
    · cases hs
      have := set_buffer_size_reference_counts w.pool bs hlen
      simp only [World.gap, this]
      exact ⟨hlen, le_refl _⟩
    · cases hs

/-- No sequence of operations of `World.step2` lowers a gap. -/
theorem World.run2_gap {w w1 : World} {ops : List Op2} (hr : w.run2 ops = some w1) (s : Nat)
    (hlen : w.pool.reference_counts.length = number_of_buffers) :
    w1.pool.reference_counts.length = number_of_buffers ∧ w.gap s ≤ w1.gap s := by
  induction ops generalizing w with
  | nil =>
    simp [World.run2] at hr
    subst hr
    exact ⟨hlen, le_refl _⟩
  | cons op ops ih =>
    simp only [World.run2] at hr
    split at hr
    · cases hr
    · rename_i w2 hstep
      obtain ⟨h1, h2⟩ := World.step2_gap hstep s hlen
      obtain ⟨h3, h4⟩ := ih hr h1
      exact ⟨h3, le_trans h2 h4⟩

/-- In a fresh world every gap is 0. -/
theorem World.init_gap (bs s : Nat) :
    (World.init bs).pool.reference_counts.length = number_of_buffers ∧
      (World.init bs).gap s = 0 := by
  refine ⟨rfl, ?_⟩
  have hrc : (World.init bs).pool.reference_counts = [0, 0, 0, 0, 0, 0, 0, 0] := rfl
  simp only [World.gap, hrc, World.init, live_refs, List.countP_nil, count_at]
  by_cases hs : s < 8
  · interval_cases s <;> rfl
  · rw [List.getElem?_eq_none (by simpa using hs)]
    rfl

/-- A slot with a positive gap has a count of at least 1 and is never handed out. -/
theorem World.gap_pos_slot_lost (w : World) (s : Nat) (hg : 1 ≤ w.gap s) :
    ∃ c, w.pool.reference_counts[s]? = some c ∧ 1 ≤ c ∧ (live_refs w.handles s : Int) + 1 ≤ c ∧
      ∀ p h, allocate w.pool = .ok (p, h) → h._reference_count ≠ some s := by
  have hpos : 0 < count_at w.pool.reference_counts s := by
    unfold World.gap at hg
    omega
  have hc := getElem?_of_count_at_pos _ _ hpos
  refine ⟨_, hc, by omega, by unfold World.gap at hg; omega, ?_⟩
  intro p h ha
  exact allocate_skips_slot_in_use hc (by omega) ha
/-! ## Facts about the processing orchestrator -/

/-- A sequence of two fallible steps returns only if both return. -/
theorem except_bind_ok {α β : Type} {x : Except Fault α} {f : α → Except Fault β} {b : β}
    (h : (x >>= f) = .ok b) : ∃ a, x = .ok a ∧ f a = .ok b := by
  cases x with
  | error e => cases h
  | ok a => exact ⟨a, rfl, h⟩

/-- The indicator `ref_at` is 0 or 1. -/
theorem ref_at_bounds (h : AudioBufferHandle) (i : Nat) : 0 ≤ ref_at h i ∧ ref_at h i ≤ 1 := by
  unfold ref_at
  split <;> omega

/-- A null handle points to no cell. -/
theorem ref_at_null (h : AudioBufferHandle) (i : Nat) (hn : h._reference_count = none) :
    ref_at h i = 0 := by
  simp [ref_at, hn]

/-- A handle on cell `i` counts once at `i`. -/
theorem ref_at_self (h : AudioBufferHandle) (i : Nat) (hi : h._reference_count = some i) :
    ref_at h i = 1 := by
  simp [ref_at, hi]

/-- A handle on cell `i` does not count at another cell. -/
theorem ref_at_other (h : AudioBufferHandle) (i s : Nat) (hi : h._reference_count = some i)
    (hs : s ≠ i) : ref_at h s = 0 := by
  have : ¬ i = s := fun e => hs e.symm
  simp [ref_at, hi, this]

/-- Effect of an increment on the counts. -/
theorem incr_count {p p1 : AudioBufferPool} {cell : Option Nat} (h : incr p cell = .ok p1) :
    p1.reference_counts.length = p.reference_counts.length ∧
    ∀ s, count_at p1.reference_counts s =
      count_at p.reference_counts s + (if cell = some s then 1 else 0) := by
  obtain ⟨i, c, rfl, hc, -, rfl⟩ := incr_ok_inv h
  refine ⟨by simp, fun s => ?_⟩
  simp only [count_at_set _ i s c (c + 1) hc]
  by_cases hs : s = i
  · subst hs
    simp [count_at_of_some _ _ _ hc]
  · have : ¬ i = s := fun e => hs e.symm
    simp [hs, this]

/-- Effect of a decrement on the counts. -/
theorem decr_count {p p1 : AudioBufferPool} {cell : Option Nat} (h : decr p cell = .ok p1) :
    p1.reference_counts.length = p.reference_counts.length ∧
    ∀ s, count_at p1.reference_counts s =
      count_at p.reference_counts s - (if cell = some s then 1 else 0) := by
  obtain ⟨i, c, rfl, hc, -, rfl⟩ := decr_ok_inv h
  refine ⟨by simp, fun s => ?_⟩
  simp only [count_at_set _ i s c (c - 1) hc]
  by_cases hs : s = i
  · subst hs
    simp [count_at_of_some _ _ _ hc]
  · have : ¬ i = s := fun e => hs e.symm
    simp [hs, this]

/-- Effect of copy construction on the counts. -/
theorem handle_copy_count {p p1 : AudioBufferPool} {h h1 : AudioBufferHandle}
    (hc : copy_construct p h = .ok (p1, h1)) :
    h1._reference_count = h._reference_count ∧
    p1.reference_counts.length = p.reference_counts.length ∧
    ∀ s, count_at p1.reference_counts s = count_at p.reference_counts s + ref_at h s := by
  unfold copy_construct at hc
  split at hc
  · cases hc
  · rename_i p2 hincr
    cases hc
    obtain ⟨h1, h2⟩ := incr_count hincr
    exact ⟨rfl, h1, fun s => by rw [h2 s]; rfl⟩

/-- Effect of destroying a handle on the counts. -/
theorem handle_destroy_count {p p1 : AudioBufferPool} {h : AudioBufferHandle}
    (hd : destroy p h = .ok p1) :
    p1.reference_counts.length = p.reference_counts.length ∧
    ∀ s, count_at p1.reference_counts s = count_at p.reference_counts s - ref_at h s := by
  unfold destroy at hd
  split at hd
  · rename_i hnull
    cases hd
    exact ⟨rfl, fun s => by simp [ref_at, hnull]⟩
  · rename_i i hcell
    obtain ⟨h1, h2⟩ := decr_count hd
    exact ⟨h1, fun s => by rw [h2 s]; simp [ref_at, hcell]⟩

/-- Effect of `release()` on the counts; the handle is null afterwards. -/
theorem handle_release_count {p p1 : AudioBufferPool} {h h1 : AudioBufferHandle}
    (hr : release p h = .ok (p1, h1)) :
    h1._reference_count = none ∧
    p1.reference_counts.length = p.reference_counts.length ∧
    ∀ s, count_at p1.reference_counts s = count_at p.reference_counts s - ref_at h s := by
  unfold release at hr
  split at hr
  · cases hr
  · rename_i p2 hdecr
    cases hr
    obtain ⟨h1, h2⟩ := decr_count hdecr
    exact ⟨rfl, h1, fun s => by rw [h2 s]; rfl⟩

/-- Effect of `allocate()` on the counts. -/
theorem allocate_count {p p1 : AudioBufferPool} {h : AudioBufferHandle}
    (ha : allocate p = .ok (p1, h)) :
    ∃ i, h._reference_count = some i ∧ count_at p.reference_counts i < 1 ∧
      p1.reference_counts.length = p.reference_counts.length ∧
      count_at p1.reference_counts i = 1 ∧
      ∀ s, s ≠ i → count_at p1.reference_counts s = count_at p.reference_counts s := by
  obtain ⟨i, c, -, hc, hc1, rfl, rfl⟩ := allocate_ok_inv ha
  refine ⟨i, rfl, by rw [count_at_of_some _ _ _ hc]; exact hc1, by simp, ?_, ?_⟩
  · simp [count_at_set _ i i c 1 hc]
  · intro s hs
    simp [count_at_set _ i s c 1 hc, hs]

/-- Effect of wrapping a handle in a `ProcessData<1>` on the counts: the envelope holds one
more handle on the cell. -/
theorem ProcessData1.construct_count {p p1 : AudioBufferPool} {h : AudioBufferHandle}
    {m : Midi} {n : Int} {x : ProcessData1}
    (hc : ProcessData1.construct p h m n = .ok (p1, x)) :
    x.audio._reference_count = h._reference_count ∧
    p1.reference_counts.length = p.reference_counts.length ∧
    ∀ s, count_at p1.reference_counts s = count_at p.reference_counts s + ref_at h s := by
  unfold ProcessData1.construct at hc
  obtain ⟨⟨pa, param⟩, h1, hc⟩ := except_bind_ok hc
  obtain ⟨⟨pb, member⟩, h2, hc⟩ := except_bind_ok hc
  obtain ⟨pc, h3, hc⟩ := except_bind_ok hc
  cases hc
  obtain ⟨e1, l1, c1⟩ := handle_copy_count h1
  obtain ⟨e2, l2, c2⟩ := handle_copy_count h2
  obtain ⟨l3, c3⟩ := handle_destroy_count h3
  refine ⟨e2.trans e1, l3.trans (l2.trans l1), fun s => ?_⟩
  have hp : ref_at param s = ref_at h s := by simp [ref_at, e1]
  rw [c3 s, c2 s, c1 s, hp]
  omega

/-- Effect of destroying a `ProcessData<2>` on the counts. -/
theorem process_data2_destroy_count {p p1 : AudioBufferPool} {x : ProcessData2}
    (hd : ProcessData2.destroy p x = .ok p1) :
    p1.reference_counts.length = p.reference_counts.length ∧
    ∀ s, count_at p1.reference_counts s = count_at p.reference_counts s - x.refs s := by
  unfold ProcessData2.destroy at hd
  obtain ⟨pa, h1, hd⟩ := except_bind_ok hd
  obtain ⟨l1, c1⟩ := handle_destroy_count h1
  obtain ⟨l2, c2⟩ := handle_destroy_count hd
  refine ⟨l2.trans l1, fun s => ?_⟩
  rw [c2 s, c1 s]
  unfold ProcessData2.refs
  omega
/-- Effect of destroying a `ProcessData<1>` on the counts. -/
theorem process_data1_destroy_count {p p1 : AudioBufferPool} {x : ProcessData1}
    (hd : ProcessData1.destroy p x = .ok p1) :
    p1.reference_counts.length = p.reference_counts.length ∧
    ∀ s, count_at p1.reference_counts s = count_at p.reference_counts s - x.refs s :=
  handle_destroy_count hd

/-- Handles counted in a moved-to and a moved-from `ProcessData<2>`. -/
theorem ProcessData2.move_construct_refs (x : ProcessData2) (s : Nat) :
    (ProcessData2.move_construct x).1.refs s = x.refs s ∧
    (ProcessData2.move_construct x).2.refs s = 0 := by
  simp [ProcessData2.move_construct, ProcessData2.refs, AudioBufferHandle.move_construct, ref_at]

/-- Bounds of the number of handles of a `ProcessData<2>` on a cell. -/
theorem process_data2_refs_nonneg (x : ProcessData2) (s : Nat) : 0 ≤ x.refs s := by
  unfold ProcessData2.refs
  have := ref_at_bounds x.audio.1 s
  have := ref_at_bounds x.audio.2 s
  omega

/-- Bookkeeping of the send buses. If every engine call changes counts only through the handles
it receives and returns, and `synth_out` is not on a free slot, then when the statements from
the two `allocate()` calls to the end of the function return, the count of each bus slot is the
number of handles of the returned envelope that point to it. -/
theorem process_send_count (effect1 effect2 : Engine ProcessData1 ProcessData2)
    (master : Engine ProcessData2 ProcessData2) (write1 write2 : (Nat → Sample) → Nat → Sample)
    (h1 : effect1.accounts ProcessData1.refs ProcessData2.refs)
    (h2 : effect2.accounts ProcessData1.refs ProcessData2.refs)
    (hm : master.accounts ProcessData2.refs ProcessData2.refs)
    (p : AudioBufferPool) (synth_out : ProcessData1) (pf : AudioBufferPool)
    (result : ProcessData2)
    (hsynth : ∀ s, synth_out.audio._reference_count = some s →
      1 ≤ count_at p.reference_counts s)
    (hrun : process_send effect1 effect2 master write1 write2 p synth_out = .ok (pf, result)) :
    ∃ p1 fx1_bus p2 fx2_bus i j, allocate p = .ok (p1, fx1_bus) ∧
      allocate p1 = .ok (p2, fx2_bus) ∧
      fx1_bus._reference_count = some i ∧ fx2_bus._reference_count = some j ∧ i ≠ j ∧
      count_at p.reference_counts i < 1 ∧ count_at p.reference_counts j < 1 ∧
      pf.reference_counts.length = p.reference_counts.length ∧
      count_at pf.reference_counts i = result.refs i ∧
      count_at pf.reference_counts j = result.refs j := by
  unfold process_send at hrun
  obtain ⟨⟨p1, fx1_bus⟩, ha1, hrun⟩ := except_bind_ok hrun
  try dsimp only at hrun
  obtain ⟨⟨p2, fx2_bus⟩, ha2, hrun⟩ := except_bind_ok hrun
  try dsimp only at hrun
  obtain ⟨⟨p3, tmp1⟩, hw1, hrun⟩ := except_bind_ok hrun
  try dsimp only at hrun
  obtain ⟨⟨p4, fx1_out, tmp1a⟩, he1, hrun⟩ := except_bind_ok hrun
  try dsimp only at hrun
  obtain ⟨p5, hd1, hrun⟩ := except_bind_ok hrun
  try dsimp only at hrun
  obtain ⟨⟨p6, tmp2⟩, hw2, hrun⟩ := except_bind_ok hrun
  try dsimp only at hrun
  obtain ⟨⟨p7, fx2_out, tmp2a⟩, he2, hrun⟩ := except_bind_ok hrun
  try dsimp only at hrun
  obtain ⟨p8, hd2, hrun⟩ := except_bind_ok hrun
  try dsimp only at hrun
  obtain ⟨⟨p9, synth_audio⟩, hr1, hrun⟩ := except_bind_ok hrun
  try dsimp only at hrun
  obtain ⟨⟨p10, fx2_audio0⟩, hr2, hrun⟩ := except_bind_ok hrun
  try dsimp only at hrun
  obtain ⟨⟨p11, fx2_audio1⟩, hr3, hrun⟩ := except_bind_ok hrun
  try dsimp only at hrun
  obtain ⟨⟨p12, fx1_bus_r⟩, hr4, hrun⟩ := except_bind_ok hrun
  try dsimp only at hrun
  obtain ⟨⟨p13, fx2_bus_r⟩, hr5, hrun⟩ := except_bind_ok hrun
  try dsimp only at hrun
  obtain ⟨⟨p14, res, param⟩, hem, hrun⟩ := except_bind_ok hrun
  try dsimp only at hrun
  obtain ⟨p15, hd3, hrun⟩ := except_bind_ok hrun
  try dsimp only at hrun
  obtain ⟨p16, hd4, hrun⟩ := except_bind_ok hrun
  try dsimp only at hrun
  obtain ⟨p17, hd5, hrun⟩ := except_bind_ok hrun
  try dsimp only at hrun
  obtain ⟨p18, hd6, hrun⟩ := except_bind_ok hrun
  try dsimp only at hrun
  obtain ⟨p19, hd7, hrun⟩ := except_bind_ok hrun
  try dsimp only at hrun
  obtain ⟨p20, hd8, hrun⟩ := except_bind_ok hrun
  try dsimp only at hrun
  cases hrun
  -- the two buses
  obtain ⟨i, hi, hfree_i, la1, ci1, co1⟩ := allocate_count ha1
  obtain ⟨j, hj, hfree_j, la2, cj2, co2⟩ := allocate_count ha2
  have hij : i ≠ j := by
    intro e
    subst e
    omega
  have hji : j ≠ i := fun e => hij e.symm
  -- every step in terms of the counts
  obtain ⟨ew1, lw1, cw1⟩ := ProcessData1.construct_count hw1
  obtain ⟨le1, ce1⟩ := h1 _ _ _ _ _ he1
  obtain ⟨ld1, cd1⟩ := process_data1_destroy_count hd1
  obtain ⟨ew2, lw2, cw2⟩ := ProcessData1.construct_count hw2
  obtain ⟨le2, ce2⟩ := h2 _ _ _ _ _ he2
  obtain ⟨ld2, cd2⟩ := process_data1_destroy_count hd2
  obtain ⟨n1, lr1, cr1⟩ := handle_release_count hr1
  obtain ⟨n2, lr2, cr2⟩ := handle_release_count hr2
  obtain ⟨n3, lr3, cr3⟩ := handle_release_count hr3
  obtain ⟨n4, lr4, cr4⟩ := handle_release_count hr4
  obtain ⟨n5, lr5, cr5⟩ := handle_release_count hr5
  obtain ⟨lem, cem⟩ := hm _ _ _ _ _ hem
  obtain ⟨ld3, cd3⟩ := process_data2_destroy_count hd3
  obtain ⟨ld4, cd4⟩ := process_data2_destroy_count hd4
  obtain ⟨ld5, cd5⟩ := process_data2_destroy_count hd5
  obtain ⟨ld6, cd6⟩ := handle_destroy_count hd6
  obtain ⟨ld7, cd7⟩ := handle_destroy_count hd7
  obtain ⟨ld8, cd8⟩ := process_data1_destroy_count hd8
  simp only at lw1 cw1 lr1 cr1
  -- which handles are on the bus slots
  have hsi : ref_at synth_out.audio i = 0 := by
    unfold ref_at
    split
    · rename_i hs
      have := hsynth i hs
      omega
    · rfl
  have hsj : ref_at synth_out.audio j = 0 := by
    unfold ref_at
    split
    · rename_i hs
      have := hsynth j hs
      have := co1 j hji
      omega
    · rfl
  have hnull : ∀ s, ProcessData2.refs
      { audio := (fx2_audio0, fx2_audio1), midi := fx2_out.midi, nframes := fx2_out.nframes } s
        = 0 := by
    intro s
    simp [ProcessData2.refs, ref_at_null _ _ n2, ref_at_null _ _ n3]
  have hnull1 : ∀ s, ProcessData1.refs
      { audio := synth_audio, midi := synth_out.midi, nframes := synth_out.nframes } s = 0 := by
    intro s
    simp [ProcessData1.refs, ref_at_null _ _ n1]
  have key : ∀ s, (s = i ∨ s = j) →
      count_at pf.reference_counts s = result.refs s := by
    intro s hs
    have b1 := ref_at_bounds tmp1a.audio s
    have b2 := ref_at_bounds tmp2a.audio s
    have b3 := process_data2_refs_nonneg fx1_out s
    have b4 := process_data2_refs_nonneg fx2_out s
    have b5 := process_data2_refs_nonneg param s
    have m1 := (ProcessData2.move_construct_refs fx1_out s).1
    have m2 := (ProcessData2.move_construct_refs fx1_out s).2
    have t1 : ProcessData1.refs tmp1 s = ref_at fx1_bus s := by
      simp [ProcessData1.refs, ref_at, ew1]
    have t2 : ProcessData1.refs tmp2 s = ref_at fx2_bus s := by
      simp [ProcessData1.refs, ref_at, ew2]
    have hfx2 : fx2_out.refs s = ref_at fx2_out.audio.1 s + ref_at fx2_out.audio.2 s := rfl
    have q1 := cw1 s
    have q2 := ce1 s
    have q3 := cd1 s
    have q4 := cw2 s
    have q5 := ce2 s
    have q6 := cd2 s
    have q7 := cr1 s
    have q8 := cr2 s
    have q9 := cr3 s
    have q10 := cr4 s
    have q11 := cr5 s
    have q12 := cem s
    have q13 := cd3 s
    have q14 := cd4 s
    have q15 := cd5 s
    have q16 := cd6 s
    have q17 := cd7 s
    have q18 := cd8 s
    rw [hnull s] at q14
    rw [hnull1 s] at q18
    rw [ref_at_null _ _ n5] at q16
    rw [ref_at_null _ _ n4] at q17
    rw [t1] at q2
    rw [t2] at q5
    rw [m1] at q12
    rw [m2] at q15
    simp only [ProcessData1.refs] at q3 q6 q2 q5
    rcases hs with rfl | rfl
    · have f1 := ref_at_self fx1_bus s hi
      have f2 := ref_at_other fx2_bus j s hj hij
      rw [hsi] at q7
      have := co2 s hij
      omega
    · have f1 := ref_at_other fx1_bus i s hi hji
      have f2 := ref_at_self fx2_bus s hj
      rw [hsj] at q7
      omega
  refine ⟨p1, fx1_bus, p2, fx2_bus, i, j, ha1, ha2, hi, hj, hij, hfree_i, ?_, ?_,
    key i (Or.inl rfl), key j (Or.inr rfl)⟩
  · have := co1 j hji
    omega
  · omega
/-- An element below the length is its own `count_at`. -/
theorem getElem?_eq_count_at (rc : List Int) (i : Nat) (hi : i < rc.length) :
    rc[i]? = some (count_at rc i) := by
  unfold count_at
  rw [List.getElem?_eq_getElem hi]
  rfl

/-- An engine that changes nothing and returns its input satisfies the assumption. -/
theorem arp_through_accounts : arp_through.accounts ProcessData0.refs ProcessData0.refs := by
  intro p x p1 y x1 h
  simp only [arp_through] at h
  cases h
  exact ⟨rfl, fun i _ => by simp [ProcessData0.refs]⟩

/-- A master stage that works in place satisfies the assumption. -/
theorem master_in_place_accounts :
    master_in_place.accounts ProcessData2.refs ProcessData2.refs := by
  intro p x p1 y x1 h
  simp only [master_in_place] at h
  cases h
  refine ⟨rfl, fun i _ => ?_⟩
  rw [(ProcessData2.move_construct_refs x i).1, (ProcessData2.move_construct_refs x i).2]
  omega

/-- An engine that returns one freshly allocated buffer satisfies the assumption. -/
theorem engine_allocating1_accounts :
    engine_allocating1.accounts ProcessData1.refs ProcessData1.refs := by
  intro p x p1 y x1 h
  simp only [engine_allocating1] at h
  split at h
  · cases h
  · rename_i pa h0 ha
    cases h
    obtain ⟨i, hi, hfree, la, ci, co⟩ := allocate_count ha
    refine ⟨la, fun s hs => ?_⟩
    have b := ref_at_bounds x.audio s
    simp only [ProcessData1.refs] at hs ⊢
    by_cases hsi : s = i
    · subst hsi
      rw [ci, ref_at_self h0 s hi]
      omega
    · rw [co s hsi, ref_at_other h0 i s hi hsi]
      omega

/-- An engine that returns two freshly allocated buffers satisfies the assumption. -/
theorem engine_allocating2_accounts {α : Type} (midi : α → Midi) (nframes : α → Int)
    (ra : α → Nat → Int) (hra : ∀ x s, 0 ≤ ra x s) :
    (engine_allocating2 midi nframes).accounts ra ProcessData2.refs := by
  intro p x p1 y x1 h
  simp only [engine_allocating2] at h
  split at h
  · cases h
  · rename_i pa h0 ha
    split at h
    · cases h
    · rename_i pb h1 hb
      cases h
      obtain ⟨i, hi, hfree_i, la, ci, co⟩ := allocate_count ha
      obtain ⟨j, hj, hfree_j, lb, cj, co2⟩ := allocate_count hb
      have hij : i ≠ j := by
        intro e
        subst e
        omega
      have hji : j ≠ i := fun e => hij e.symm
      refine ⟨lb.trans la, fun s hs => ?_⟩
      have b := hra x s
      simp only [ProcessData2.refs]
      by_cases hsi : s = i
      · subst hsi
        rw [co2 s hij, ci, ref_at_self h0 s hi, ref_at_other h1 j s hj hij]
        omega
      · by_cases hsj : s = j
        · subst hsj
          have := co s hsi
          rw [cj, ref_at_other h0 i s hi hsi, ref_at_self h1 s hj]
          omega
        · rw [co2 s hsj, co s hsi, ref_at_other h0 i s hi hsi, ref_at_other h1 j s hj hsj]
          omega

/-- Handles counted in a `ProcessData<1>` are not negative. -/
theorem process_data1_refs_nonneg (x : ProcessData1) (s : Nat) : 0 ≤ x.refs s :=
  (ref_at_bounds x.audio s).1

/-! ## The claims, continued -/

/-- Claim C11, evaluated on the source: with block length 613566757 and all slots free,
`allocate_multi<8>()` returns handles to the pairwise distinct slots 0 to 7 in increasing order
and sets every count to 1, but the offsets are narrowed by `int index = i * buffer_size` (the
defect of C4): the handle of slot 7 views samples `[3, 613566760)`, which overlaps the range
`[0, 613566757)` of the handle of slot 0 and the range of the handle of slot 1. -/
theorem allocate_multi_ranges_overlap_for_large_blocks :
    ∃ p hs, allocate_multi 8 (AudioBufferPool.construct 613566757) = .ok (p, hs) ∧
      hs.map (fun h => h._reference_count) =
        [some 0, some 1, some 2, some 3, some 4, some 5, some 6, some 7] ∧
      p.reference_counts = [1, 1, 1, 1, 1, 1, 1, 1] ∧
      hs.map AudioBufferHandle.range =
        [some (0, 613566757), some (613566757, 1227133514), some (1227133514, 1840700271),
         some (1840700271, 2454267028), some (-1840700268, -1227133511),
         some (-1227133511, -613566754), some (-613566754, 3), some (3, 613566760)] :=
  ⟨_, _, rfl, rfl, rfl, by decide⟩
/-- Counterexample to C12 as stated: every engine below changes counts only through the
handles it receives and returns, the effects and the master stage each return two buffers they
get from the pool. The master stage runs after `fx1_bus.release()` and `fx2_bus.release()`, so
first fit hands it the slot of `fx1_bus` (slot 2): at return that slot has count 1, not the
count 0 it had immediately before the two `allocate()` calls. -/
theorem bus_slot_reused_by_master_stage :
    arp_through.accounts ProcessData0.refs ProcessData0.refs ∧
    engine_allocating1.accounts ProcessData1.refs ProcessData1.refs ∧
    (engine_allocating2 ProcessData1.midi ProcessData1.nframes).accounts
      ProcessData1.refs ProcessData2.refs ∧
    (engine_allocating2 ProcessData2.midi ProcessData2.nframes).accounts
      ProcessData2.refs ProcessData2.refs ∧
    ∃ p1 fx1_bus pf result, allocate pool_before_buses = .ok (p1, fx1_bus) ∧
      fx1_bus._reference_count = some 2 ∧
      pool_before_buses.reference_counts[2]? = some 0 ∧
      process arp_through engine_allocating1
        (engine_allocating2 ProcessData1.midi ProcessData1.nframes)
        (engine_allocating2 ProcessData1.midi ProcessData1.nframes)
        (engine_allocating2 ProcessData2.midi ProcessData2.nframes) id id
        pool_one_live external_input = .ok (pf, result) ∧
      process_send (engine_allocating2 ProcessData1.midi ProcessData1.nframes)
        (engine_allocating2 ProcessData1.midi ProcessData1.nframes)
        (engine_allocating2 ProcessData2.midi ProcessData2.nframes) id id
        pool_before_buses synth_output = .ok (pf, result) ∧
      pf.reference_counts = [1, 1, 1, 0, 0, 0, 0, 0] ∧
      pf.reference_counts[2]? = some 1 ∧
      result.audio.2._reference_count = some 2 :=
  ⟨arp_through_accounts, engine_allocating1_accounts,
    engine_allocating2_accounts _ _ _ process_data1_refs_nonneg,
    engine_allocating2_accounts _ _ _ process_data2_refs_nonneg,
    ⟨_, _, { AudioBufferPool.construct 64 with reference_counts := [1, 1, 1, 0, 0, 0, 0, 0] },
      { audio := (handle_slot1,
          { _data := some { block := 1, off := 128 }, _length := 64,
            _reference_count := some 2 }),
        midi := [], nframes := 64 },
      rfl, rfl, rfl, rfl, rfl, rfl, rfl, rfl⟩⟩

/-- Claim C12, amended. Assume every engine call changes slot counts only through the handles
it receives and returns (`Engine.accounts`) and no count is negative on entry. If
`DefaultEngineManager::process` returns, then with `pa` the pool immediately before the two
`allocate()` calls: `fx1_bus` and `fx2_bus` get two different slots `i` and `j` that are free in
`pa`, and at return the count of each of the two slots is exactly the number of handles of the
returned envelope that point to it. So the buses and every temporary copy made when they are
wrapped in `ProcessData<1>` have been released or destroyed; a bus slot that the returned
envelope does not view has count 0 at return, and if its count in `pa` was 0 the count at
return equals the count before the `allocate()` calls. -/
theorem process_releases_send_buses (arpeggiator : Engine ProcessData0 ProcessData0)
    (synth : Engine ProcessData1 ProcessData1)
    (effect1 effect2 : Engine ProcessData1 ProcessData2)
    (master : Engine ProcessData2 ProcessData2) (write1 write2 : (Nat → Sample) → Nat → Sample)
    (p : AudioBufferPool) (external_in : ProcessData1) (pf : AudioBufferPool)
    (result : ProcessData2)
    (ha : arpeggiator.accounts ProcessData0.refs ProcessData0.refs)
    (hs : synth.accounts ProcessData1.refs ProcessData1.refs)
    (h1 : effect1.accounts ProcessData1.refs ProcessData2.refs)
    (h2 : effect2.accounts ProcessData1.refs ProcessData2.refs)
    (hm : master.accounts ProcessData2.refs ProcessData2.refs)
    (hp : ∀ s, 0 ≤ count_at p.reference_counts s)
    (hrun : process arpeggiator synth effect1 effect2 master write1 write2 p external_in =
      .ok (pf, result)) :
    ∃ pa synth_out p1 fx1_bus p2 fx2_bus i j,
      process_send effect1 effect2 master write1 write2 pa synth_out = .ok (pf, result) ∧
      allocate pa = .ok (p1, fx1_bus) ∧ allocate p1 = .ok (p2, fx2_bus) ∧
      fx1_bus._reference_count = some i ∧ fx2_bus._reference_count = some j ∧ i ≠ j ∧
      (∃ ci, pa.reference_counts[i]? = some ci ∧ ci < 1) ∧
      (∃ cj, pa.reference_counts[j]? = some cj ∧ cj < 1) ∧
      pf.reference_counts[i]? = some (result.refs i) ∧
      pf.reference_counts[j]? = some (result.refs j) ∧
      (result.refs i = 0 → pf.reference_counts[i]? = some 0) ∧
      (result.refs j = 0 → pf.reference_counts[j]? = some 0) ∧
      (result.refs i = 0 → pa.reference_counts[i]? = some 0 →
        pf.reference_counts[i]? = pa.reference_counts[i]?) ∧
      (result.refs j = 0 → pa.reference_counts[j]? = some 0 →
        pf.reference_counts[j]? = pa.reference_counts[j]?) := by
  unfold process at hrun
  dsimp only at hrun
  obtain ⟨⟨pA, arp_out, arp_in⟩, hea, hrun⟩ := except_bind_ok hrun
  try dsimp only at hrun
  obtain ⟨⟨pB, tmp⟩, hw, hrun⟩ := except_bind_ok hrun
  try dsimp only at hrun
  obtain ⟨⟨pC, synth_out, tmpa⟩, hes, hrun⟩ := except_bind_ok hrun
  try dsimp only at hrun
  obtain ⟨pD, hd, hrun⟩ := except_bind_ok hrun
  try dsimp only at hrun
  obtain ⟨-, ca⟩ := ha _ _ _ _ _ hea
  obtain ⟨ew, -, cw⟩ := ProcessData1.construct_count hw
  obtain ⟨-, cs⟩ := hs _ _ _ _ _ hes
  obtain ⟨-, cd⟩ := process_data1_destroy_count hd
  have hsynth : ∀ s, synth_out.audio._reference_count = some s →
      1 ≤ count_at pD.reference_counts s := by
    intro s hson
    have q0 := hp s
    have q1 := ca s (by simp only [ProcessData0.refs]; exact q0)
    have q2 := cw s
    have t : ProcessData1.refs tmp s = ref_at external_in.audio s := by
      simp [ProcessData1.refs, ref_at, ew]
    have b := ref_at_bounds external_in.audio s
    have q3 := cs s (by rw [t]; simp only [ProcessData0.refs] at q1; omega)
    have q4 := cd s
    have f := ref_at_self synth_out.audio s hson
    simp only [ProcessData0.refs, ProcessData1.refs] at q1 q3 q4 t
    rw [t] at q3
    omega
  obtain ⟨p1, fx1_bus, p2, fx2_bus, i, j, ha1, ha2, hi, hj, hij, hfi, hfj, hlen, hci, hcj⟩ :=
    process_send_count effect1 effect2 master write1 write2 h1 h2 hm pD synth_out pf result
      hsynth hrun
  obtain ⟨i', ci, -, hci', hci1, -, hfx1⟩ := allocate_ok_inv ha1
  have ei : i' = i := by
    rw [hfx1] at hi
    exact Option.some.inj hi
  subst ei
  have hjlen : j < pD.reference_counts.length := by
    obtain ⟨j', cj, -, hcj', -, -, hfx2⟩ := allocate_ok_inv ha2
    have ej : j' = j := by
      rw [hfx2] at hj
      exact Option.some.inj hj
    subst ej
    have hl := allocate_length ha1
    by_contra hcon
    rw [List.getElem?_eq_none (by omega)] at hcj'
    cases hcj'
  have hilen : i' < pD.reference_counts.length := by
    by_contra hcon
    rw [List.getElem?_eq_none (by omega)] at hci'
    cases hci'
  have gi := getElem?_eq_count_at pf.reference_counts i' (by omega)
  have gj := getElem?_eq_count_at pf.reference_counts j (by omega)
  have gj0 := getElem?_eq_count_at pD.reference_counts j hjlen
  rw [hci] at gi
  rw [hcj] at gj
  refine ⟨pD, synth_out, p1, fx1_bus, p2, fx2_bus, i', j, hrun, ha1, ha2, hi, hj, hij,
    ⟨ci, hci', hci1⟩, ⟨_, gj0, hfj⟩, gi, gj, ?_, ?_, ?_, ?_⟩
  · intro h0
    rw [gi, h0]
  · intro h0
    rw [gj, h0]
  · intro h0 hb
    rw [gi, h0, hb]
  · intro h0 hb
    rw [gj, h0, hb]

/-- Witness for C12: external input in slot 0, a synth and two effects that return buffers they
get from the pool, a master stage that works in place. The buses get slots 2 and 3, which the
returned envelope (slots 4 and 5) does not view: at return both have count 0, their value
immediately before the two `allocate()` calls. -/
theorem process_releases_send_buses_witness :
    ∃ pf result, process arp_through engine_allocating1
        (engine_allocating2 ProcessData1.midi ProcessData1.nframes)
        (engine_allocating2 ProcessData1.midi ProcessData1.nframes) master_in_place id id
        pool_one_live external_input = .ok (pf, result) ∧
      pf.reference_counts = [1, 0, 0, 0, 1, 1, 0, 0] ∧
      result.audio.1._reference_count = some 4 ∧ result.audio.2._reference_count = some 5 ∧
      ∃ pa synth_out p1 fx1_bus p2 fx2_bus i j,
        process_send (engine_allocating2 ProcessData1.midi ProcessData1.nframes)
          (engine_allocating2 ProcessData1.midi ProcessData1.nframes) master_in_place id id
          pa synth_out = .ok (pf, result) ∧
        allocate pa = .ok (p1, fx1_bus) ∧ allocate p1 = .ok (p2, fx2_bus) ∧
        fx1_bus._reference_count = some i ∧ fx2_bus._reference_count = some j ∧ i ≠ j ∧
        (∃ ci, pa.reference_counts[i]? = some ci ∧ ci < 1) ∧
        (∃ cj, pa.reference_counts[j]? = some cj ∧ cj < 1) ∧
        pf.reference_counts[i]? = some (result.refs i) ∧
        pf.reference_counts[j]? = some (result.refs j) ∧
        (result.refs i = 0 → pf.reference_counts[i]? = some 0) ∧
        (result.refs j = 0 → pf.reference_counts[j]? = some 0) ∧
        (result.refs i = 0 → pa.reference_counts[i]? = some 0 →
          pf.reference_counts[i]? = pa.reference_counts[i]?) ∧
        (result.refs j = 0 → pa.reference_counts[j]? = some 0 →
          pf.reference_counts[j]? = pa.reference_counts[j]?) :=
  ⟨{ AudioBufferPool.construct 64 with reference_counts := [1, 0, 0, 0, 1, 1, 0, 0] },
    { audio := ({ _data := some { block := 1, off := 256 }, _length := 64,
                  _reference_count := some 4 },
                { _data := some { block := 1, off := 320 }, _length := 64,
                  _reference_count := some 5 }),
      midi := [], nframes := 64 },
    rfl, rfl, rfl, rfl,
    process_releases_send_buses arp_through engine_allocating1
      (engine_allocating2 ProcessData1.midi ProcessData1.nframes)
      (engine_allocating2 ProcessData1.midi ProcessData1.nframes) master_in_place id id
      pool_one_live external_input _ _ arp_through_accounts engine_allocating1_accounts
      (engine_allocating2_accounts _ _ _ process_data1_refs_nonneg)
      (engine_allocating2_accounts _ _ _ process_data1_refs_nonneg) master_in_place_accounts
      (by
        intro s
        have hrc : pool_one_live.reference_counts = [1, 0, 0, 0, 0, 0, 0, 0] := rfl
        rw [hrc]
        unfold count_at
        by_cases hs : s < 8
        · interval_cases s <;> decide
        · rw [List.getElem?_eq_none (by simpa using hs)]
          decide)
      rfl⟩

/-- Counterexample to C13 as stated: with a live handle `a` on slot 0 whose count is `INT_MAX`
and a live handle `b` on slot 1, `b = a` does not make the count of slot 0 one higher; the
increment is signed overflow. -/
theorem copy_assign_at_int_max_overflows :
    handle_slot0._reference_count = some 0 ∧ handle_slot1._reference_count = some 1 ∧
    pool_slot0_at_int_max.reference_counts[0]? = some INT_MAX ∧
    pool_slot0_at_int_max.reference_counts[1]? = some 1 ∧
    copy_assign pool_slot0_at_int_max handle_slot1 handle_slot0 = .error .signed_overflow :=
  ⟨rfl, rfl, rfl, rfl, rfl⟩

/-- Claim C13, amended. Assignment onto a handle `b` that points to slot `s` overwrites the
fields of `b` and does not decrement the count of `s`. For live handles `a` on slot `t ≠ s`
and `b` on slot `s`: if the count of `t` is below `INT_MAX`, `b = a` returns, leaves the count
of `s` unchanged, makes the count of `t` one higher and gives `b` the fields of `a`;
`b = std::move(a)` gives `b` the fields of `a`, leaves `a` null and changes no count.
Consequently, in every state reached from a fresh pool by handle operations, assignments and
`set_buffer_size`, after an assignment onto a handle that points to `s` the count of `s` stays
at least one above the number of handles that point to `s` through every later sequence of
such operations (destruction of `b` included), so it stays at least 1 also when no handle
points to `s`, and `allocate()` never hands out `s` again. -/
theorem assignment_leaks_slot :
    (∀ (p : AudioBufferPool) (a b : AudioBufferHandle) (s t : Nat) (cs ct : Int),
      b._reference_count = some s → a._reference_count = some t → s ≠ t →
      p.reference_counts[s]? = some cs → p.reference_counts[t]? = some ct → ct < INT_MAX →
      ∃ p1 b1, copy_assign p b a = .ok (p1, b1) ∧
        b1._data = a._data ∧ b1._length = a._length ∧ b1._reference_count = some t ∧
        p1.reference_counts[s]? = some cs ∧ p1.reference_counts[t]? = some (ct + 1) ∧
        (∀ j, j ≠ t → p1.reference_counts[j]? = p.reference_counts[j]?)) ∧
    (∀ (a b : AudioBufferHandle), (move_assign b a).1 = a ∧
      (move_assign b a).2._reference_count = none ∧ (move_assign b a).2._data = none) ∧
    (∀ (w w1 : World) (k1 k2 : Nat), w.step2 (.move_assign k1 k2) = some w1 →
      w1.pool = w.pool) ∧
    (∀ (bs : Nat) (ops : List Op2) (w w1 : World) (k1 k2 ob : Nat) (b : AudioBufferHandle)
      (s : Nat),
      (World.init bs).run2 ops = some w → w.handles[k1]? = some (ob, b) →
      b._reference_count = some s →
      (w.step2 (.copy_assign k1 k2) = some w1 ∨ w.step2 (.move_assign k1 k2) = some w1) →
      ∀ (ops2 : List Op2) (w2 : World), w1.run2 ops2 = some w2 →
        ∃ c, w2.pool.reference_counts[s]? = some c ∧ 1 ≤ c ∧
          (live_refs w2.handles s : Int) + 1 ≤ c ∧
          ∀ p h, allocate w2.pool = .ok (p, h) → h._reference_count ≠ some s) := by
  refine ⟨?_, fun a b => ⟨rfl, rfl, rfl⟩, ?_, ?_⟩
  · intro p a b s t cs ct _ ha hst hcs hct hmax
    refine ⟨{ p with reference_counts := p.reference_counts.set t (ct + 1) },
      { _data := a._data, _length := a._length, _reference_count := a._reference_count },
      ?_, rfl, rfl, ha, ?_, getElem?_set_self_of_some _ _ _ _ hct,
      fun j hj => getElem?_set_other _ _ _ _ hj⟩
    · simp [copy_assign, ha, incr_some_ok p t ct hct hmax]
    · simp only
      rw [getElem?_set_other _ _ _ _ hst]
      exact hcs
  · intro w w1 k1 k2 hs
    simp only [World.step2] at hs
    split at hs
    · cases hs
      rfl
    · cases hs
  · intro bs ops w w1 k1 k2 ob b s hr hk1 hb hassign ops2 w2 hr2
    obtain ⟨hlen0, hgap0⟩ := World.init_gap bs s
    obtain ⟨hlen, hgap⟩ := World.run2_gap hr s hlen0
    obtain ⟨hlen1, ob1, b1, hk1', hgap1⟩ := World.assign_gap hassign s
    rw [hk1] at hk1'
    cases hk1'
    rw [if_pos hb] at hgap1
    obtain ⟨-, hgap2⟩ := World.run2_gap hr2 s (hlen1.trans hlen)
    exact World.gap_pos_slot_lost w2 s (by omega)

/-- Witness for C13: in a pool of block length 64 the handle of slot 1 is overwritten by a copy
of the handle of slot 0; after both handles are destroyed the counts are `[0, 1, 0, ...]`, and
after a resize and two more allocations slot 1 still has count 1 and no handle, while the new
handles got slots 0 and 2. -/
theorem assignment_leaks_slot_witness :
    ∃ w w1 w2, (World.init 64).run2 [.base .allocate, .base .allocate] = some w ∧
      w.handles.map (fun x => x.2._reference_count) = [some 0, some 1] ∧
      w.step2 (.copy_assign 1 0) = some w1 ∧
      w1.pool.reference_counts = [2, 1, 0, 0, 0, 0, 0, 0] ∧
      w1.run2 after_leak_ops = some w2 ∧
      w2.pool.reference_counts = [1, 1, 1, 0, 0, 0, 0, 0] ∧
      w2.handles.map (fun x => x.2._reference_count) = [some 0, some 2] ∧
      ∃ c, w2.pool.reference_counts[1]? = some c ∧ 1 ≤ c ∧
        (live_refs w2.handles 1 : Int) + 1 ≤ c ∧
        ∀ p h, allocate w2.pool = .ok (p, h) → h._reference_count ≠ some 1 :=
  ⟨_, _, _, rfl, rfl, rfl, rfl, rfl, rfl, rfl,
    assignment_leaks_slot.2.2.2 64 [.base .allocate, .base .allocate] _ _ 1 0 1 handle_slot1 1
      rfl rfl rfl (Or.inl rfl) after_leak_ops _ rfl⟩

end otto.core.audio
